import Mathlib

/-!
Shallow embedding of the tabular RF report builder of the repository —
`parseAndAnalyzeCsv` and its helpers (`isNumeric`, `cleanAndParseFloat`,
`parseTimestamp`, delimiter detection, header/boundary detection, column
role inference, row parsing, aggregation and sampling) — together with
proofs settling the stated claims about it.

Modelling conventions, documented once here:

* JavaScript numbers are modelled by `JNum`: `nan`, a signed infinity, or a
  finite value carried as an exact rational.  Literal parsing and arithmetic
  produce exact rationals; a result whose magnitude reaches
  `2 ^ 1024 - 2 ^ 970` (the exact round-to-nearest overflow boundary of an
  IEEE-754 binary64 value) becomes an infinity, as in JavaScript.  Rounding
  of in-range values to binary64 (and underflow to zero) is not modelled;
  nothing below depends on it.
* `new Date(string)` parsing — the fallback used by `parseTimestamp` for
  non-numeric cells — is host-defined in JavaScript.  It is modelled as an
  explicit oracle parameter `dp : DateOracle` returning the parsed epoch
  milliseconds (a finite value), or `none` for an invalid date.  Theorems
  quantify over the oracle.
* Strings are handled character-wise: whitespace is the ASCII whitespace
  set and `toLowerCase` is character lowercasing, which agree with
  JavaScript on the inputs this component sees.
* `Array.prototype.sort` is modelled by a stable insertion sort
  (`sortJs`); every comparator the source passes to `sort` is consistent
  on the values actually sorted, so the stable order is the one JavaScript
  produces.  Comparators of the form `x - y < 0` are translated to the
  corresponding order test, and standard-deviation comparisons are
  translated to the equivalent variance comparisons (square root is
  strictly monotone), keeping everything in `ℚ`.
-/

-- Batteries seals rational arithmetic; reopen it so that concrete runs of
-- the embedded parser can be evaluated inside proofs.
attribute [local semireducible] Rat.add Rat.sub Rat.mul Rat.inv Rat.ofScientific

/-- A JavaScript number: `NaN`, a signed infinity, or a finite value
    (exact rational). -/
inductive JNum where
  | nan : JNum
  | inf (positive : Bool) : JNum
  | fin (q : ℚ) : JNum
deriving DecidableEq, Repr

set_option maxRecDepth 100000

/-- The exact magnitude at which a real value rounds to an IEEE-754
    binary64 infinity (round-to-nearest-even). -/
def jsOverflow : ℚ := ((2 ^ 1024 - 2 ^ 970 : ℕ) : ℚ)

/-- Classify an exact rational result as a JavaScript number, producing an
    infinity on overflow. -/
def JNum.normalize (q : ℚ) : JNum :=
  if jsOverflow ≤ q then .inf true
  else if q ≤ -jsOverflow then .inf false
  else .fin q

def JNum.isNaN : JNum → Bool
  | .nan => true
  | _ => false

def JNum.isFinite : JNum → Bool
  | .fin _ => true
  | _ => false

/-- JavaScript `<` on numbers (false whenever an operand is `NaN`). -/
def jsLtB : JNum → JNum → Bool
  | .nan, _ => false
  | _, .nan => false
  | .inf true, _ => false
  | .inf false, .inf false => false
  | .inf false, _ => true
  | .fin _, .inf b => b
  | .fin a, .fin b => decide (a < b)

/-- JavaScript `<=` on numbers (false whenever an operand is `NaN`). -/
def jsLeB : JNum → JNum → Bool
  | .nan, _ => false
  | _, .nan => false
  | .inf true, .inf true => true
  | .inf true, _ => false
  | .inf false, _ => true
  | .fin _, .inf b => b
  | .fin a, .fin b => decide (a ≤ b)

def JNum.neg : JNum → JNum
  | .nan => .nan
  | .inf b => .inf (!b)
  | .fin q => .fin (-q)

/-- JavaScript addition. -/
def jsAdd : JNum → JNum → JNum
  | .nan, _ => .nan
  | _, .nan => .nan
  | .inf a, .inf b => if a = b then .inf a else .nan
  | .inf a, .fin _ => .inf a
  | .fin _, .inf b => .inf b
  | .fin a, .fin b => JNum.normalize (a + b)

/-- JavaScript subtraction. -/
def jsSub (a b : JNum) : JNum := jsAdd a b.neg

/-- JavaScript multiplication. -/
def jsMul : JNum → JNum → JNum
  | .nan, _ => .nan
  | _, .nan => .nan
  | .inf a, .inf b => .inf (a = b)
  | .inf a, .fin q => if q = 0 then .nan else .inf (a = decide (0 < q))
  | .fin q, .inf b => if q = 0 then .nan else .inf (b = decide (0 < q))
  | .fin a, .fin b => JNum.normalize (a * b)

/-- JavaScript division (signed zero is not distinguished). -/
def jsDiv : JNum → JNum → JNum
  | .nan, _ => .nan
  | _, .nan => .nan
  | .inf _, .inf _ => .nan
  | .inf a, .fin q => if q = 0 then .inf a else .inf (a = decide (0 < q))
  | .fin _, .inf _ => .fin 0
  | .fin a, .fin b =>
    if b = 0 then (if a = 0 then .nan else .inf (decide (0 < a)))
    else JNum.normalize (a / b)

/-- JavaScript `Math.min` (propagates `NaN`). -/
def jsMin (a b : JNum) : JNum :=
  if a.isNaN || b.isNaN then .nan else if jsLtB b a then b else a

/-- JavaScript `Math.max` (propagates `NaN`). -/
def jsMax (a b : JNum) : JNum :=
  if a.isNaN || b.isNaN then .nan else if jsLtB a b then b else a

/-! ### Character-level string utilities -/

/-- ASCII whitespace, as matched by `\s`, `trim` and numeric-literal
    whitespace skipping. -/
def wsChar (c : Char) : Bool :=
  c = ' ' || c = '\t' || c = '\n' || c = '\r' || c = '\x0b' || c = '\x0c'

def trimChars (cs : List Char) : List Char :=
  ((cs.dropWhile wsChar).reverse.dropWhile wsChar).reverse

/-- JavaScript `String.prototype.trim`. -/
def jsTrim (s : String) : String := String.mk (trimChars s.data)

/-- JavaScript `String.prototype.toLowerCase` (ASCII). -/
def jsToLower (s : String) : String := String.mk (s.data.map Char.toLower)

/-- `value.replace(/,/g, '')` — strip every comma. -/
def removeCommas (s : String) : String :=
  String.mk (s.data.filter (fun c => c != ','))

/-- `String.prototype.split` with a single-character separator. -/
def splitChar (sep : Char) : List Char → List (List Char)
  | [] => [[]]
  | c :: rest =>
    if c = sep then [] :: splitChar sep rest
    else
      match splitChar sep rest with
      | t :: ts => (c :: t) :: ts
      | [] => [[c]]

/-- `text.split(/\r\n?|\n/)` — split into lines. -/
def splitNewlines : List Char → List (List Char)
  | [] => [[]]
  | '\r' :: '\n' :: rest => [] :: splitNewlines rest
  | '\r' :: rest => [] :: splitNewlines rest
  | '\n' :: rest => [] :: splitNewlines rest
  | c :: rest =>
    match splitNewlines rest with
    | t :: ts => (c :: t) :: ts
    | [] => [[c]]

mutual

/-- Helper for `row.trim().split(/\s+/)`: accumulate the current token. -/
def wsSplitGo : List Char → List Char → List String
  | [], acc => [String.mk acc.reverse]
  | c :: rest, acc =>
    if wsChar c then String.mk acc.reverse :: wsSplitSkip rest
    else wsSplitGo rest (c :: acc)

/-- Helper for `row.trim().split(/\s+/)`: skip a whitespace run. -/
def wsSplitSkip : List Char → List String
  | [] => [""]
  | c :: rest => if wsChar c then wsSplitSkip rest else wsSplitGo rest [c]
end

/-- `row.trim().split(/\s+/)` — whitespace-run splitting of a trimmed row. -/
def wsSplit (s : String) : List String :=
  wsSplitGo (trimChars s.data) []

def startsWithChars : List Char → List Char → Bool
  | [], _ => true
  | _ :: _, [] => false
  | p :: ps, c :: cs => p = c && startsWithChars ps cs

def containsChars (pat : List Char) : List Char → Bool
  | [] => pat.isEmpty
  | c :: cs => startsWithChars pat (c :: cs) || containsChars pat cs

/-- JavaScript `String.prototype.includes`. -/
def strIncludes (s sub : String) : Bool := containsChars sub.data s.data

/-! ### JavaScript numeric-literal parsing: `parseFloat` and `Number` -/

/-- Value of a list of decimal digits. -/
def digitsVal (ds : List Char) : Nat :=
  ds.foldl (fun a c => a * 10 + (c.toNat - 48)) 0

def qPow10 : Int → ℚ
  | .ofNat n => ((10 ^ n : ℕ) : ℚ)
  | .negSucc n => 1 / ((10 ^ (n + 1) : ℕ) : ℚ)

/-- Exact value of a decimal literal `[-] intDs . fracDs e exp`, classified
    as a JavaScript number. -/
def decValue (sign : Bool) (intDs fracDs : List Char) (exp : Int) : JNum :=
  let mag : ℚ := (digitsVal (intDs ++ fracDs) : ℚ) / ((10 ^ fracDs.length : ℕ) : ℚ) * qPow10 exp
  JNum.normalize (if sign then mag else -mag)

/-- Parse an optional exponent part at the head of `cs`, `parseFloat`
    style: an ill-formed exponent is simply not consumed. -/
def parseExpLoose (cs : List Char) : Int :=
  match cs with
  | 'e' :: rest | 'E' :: rest =>
    let (esign, rest2) :=
      match rest with
      | '+' :: r => (true, r)
      | '-' :: r => (false, r)
      | r => (true, r)
    let eds := rest2.takeWhile Char.isDigit
    if eds.isEmpty then 0
    else if esign then (digitsVal eds : Int) else -(digitsVal eds : Int)
  | _ => 0

/-- `parseFloat` after whitespace/sign stripping: longest decimal-literal
    prefix, trailing garbage ignored. -/
def parseFloatChars (sign : Bool) (cs : List Char) : JNum :=
  if startsWithChars "Infinity".data cs then JNum.inf sign
  else
    let intDs := cs.takeWhile Char.isDigit
    let rest1 := cs.dropWhile Char.isDigit
    let (fracDs, rest2) :=
      match rest1 with
      | '.' :: r => (r.takeWhile Char.isDigit, r.dropWhile Char.isDigit)
      | r => ([], r)
    if intDs.isEmpty && fracDs.isEmpty then JNum.nan
    else decValue sign intDs fracDs (parseExpLoose rest2)

/-- JavaScript `parseFloat`. -/
def jsParseFloat (s : String) : JNum :=
  match s.data.dropWhile wsChar with
  | '+' :: r => parseFloatChars true r
  | '-' :: r => parseFloatChars false r
  | r => parseFloatChars true r

/-- Full-string unsigned decimal literal, for `Number` (`Infinity` is
    handled by the caller). -/
def parseDecFull (cs : List Char) : Option ℚ :=
  let intDs := cs.takeWhile Char.isDigit
  let rest1 := cs.dropWhile Char.isDigit
  let (fracDs, rest2) :=
    match rest1 with
    | '.' :: r => (r.takeWhile Char.isDigit, r.dropWhile Char.isDigit)
    | r => ([], r)
  if intDs.isEmpty && fracDs.isEmpty then none
  else
    let expPart : Option Int :=
      match rest2 with
      | [] => some 0
      | 'e' :: rest | 'E' :: rest =>
        let (esign, rest3) :=
          match rest with
          | '+' :: r => (true, r)
          | '-' :: r => (false, r)
          | r => (true, r)
        let eds := rest3.takeWhile Char.isDigit
        let rest4 := rest3.dropWhile Char.isDigit
        if eds.isEmpty || !rest4.isEmpty then none
        else some (if esign then (digitsVal eds : Int) else -(digitsVal eds : Int))
      | _ => none
    expPart.map (fun e =>
      (digitsVal (intDs ++ fracDs) : ℚ) / ((10 ^ fracDs.length : ℕ) : ℚ) * qPow10 e)

def hexVal (c : Char) : Option Nat :=
  if c.isDigit then some (c.toNat - 48)
  else if 'a' ≤ c && c ≤ 'f' then some (c.toNat - 87)
  else if 'A' ≤ c && c ≤ 'F' then some (c.toNat - 55)
  else none

def radixDigitsVal (radix : Nat) (cs : List Char) : Option Nat :=
  cs.foldl
    (fun acc c =>
      acc.bind fun a =>
        (hexVal c).bind fun v => if v < radix then some (a * radix + v) else none)
    (some 0)

/-- A full non-decimal (`0x`/`0o`/`0b`) integer literal for `Number`. -/
def radixNum (radix : Nat) (ds : List Char) : JNum :=
  if ds.isEmpty then JNum.nan
  else
    match radixDigitsVal radix ds with
    | some n => JNum.normalize n
    | none => JNum.nan

/-- A full signed decimal literal (or `Infinity`) for `Number`. -/
def decSignedNum (cs : List Char) : JNum :=
  let (sign, rest) :=
    match cs with
    | '+' :: r => (true, r)
    | '-' :: r => (false, r)
    | r => (true, r)
  if rest = "Infinity".data then JNum.inf sign
  else
    match parseDecFull rest with
    | some q => JNum.normalize (if sign then q else -q)
    | none => JNum.nan

/-- JavaScript `Number(string)`: trims, then requires the whole remaining
    string to be one numeric literal; the empty string is `0`. -/
def jsNumber (s : String) : JNum :=
  match trimChars s.data with
  | [] => JNum.fin 0
  | '0' :: c :: rest =>
    if c = 'x' || c = 'X' then radixNum 16 rest
    else if c = 'o' || c = 'O' then radixNum 8 rest
    else if c = 'b' || c = 'B' then radixNum 2 rest
    else decSignedNum ('0' :: c :: rest)
  | cs => decSignedNum cs

/-! ### JavaScript `Array.prototype.sort`, as a stable insertion sort

`sortJs precedes l` sorts `l` so that `y` is placed before `x` exactly when
`precedes y x` holds (`precedes y x` translates "`comparator y x < 0`");
elements that tie keep their original relative order, as JavaScript's sort
guarantees. -/

def insertJs (precedes : α → α → Bool) (x : α) : List α → List α
  | [] => [x]
  | y :: ys => if precedes y x then y :: insertJs precedes x ys else x :: y :: ys

def sortJs (precedes : α → α → Bool) : List α → List α
  | [] => []
  | x :: xs => insertJs precedes x (sortJs precedes xs)

/-- First element attaining the minimal key (used to characterise
    `sort(...)[0]`). -/
def argminFirst (key : α → ℚ) : List α → Option α
  | [] => none
  | x :: xs =>
    match argminFirst key xs with
    | none => some x
    | some m => if key m < key x then some m else some x

/-! ### The embedded source: `services/fileParserService.ts` -/

/-- Model of host `new Date(string)` parsing: epoch milliseconds of a
    valid date string, `none` otherwise. -/
def DateOracle : Type := String → Option ℚ

/-- A date oracle under which no string is a valid date (convenient for
    concrete runs; theorems hold for every oracle). -/
def dpNone : DateOracle := fun _ => none

/-- `isNumeric` — "checks if a string looks like a number, handling
    thousands separators":
    `str.trim() !== '' && !isNaN(parseFloat(numStr)) && isFinite(Number(numStr))`
    with `numStr = str.replace(/,/g, '')`. -/
def isNumeric (str : String) : Bool :=
  if jsTrim str = "" then false
  else
    let numStr := removeCommas str
    !(jsParseFloat numStr).isNaN && (jsNumber numStr).isFinite

/-- The one replacement performed by
    `.replace(/(mhz|khz|ghz|hz|dbm|db|mw|pwr)$/i, '')`: strip a single
    trailing unit suffix.  The regular-expression engine takes the
    leftmost match ending at the end of the string, so a three-character
    suffix wins over a two-character one. -/
def stripUnitSuffix (s : String) : String :=
  let cs := s.data
  let n := cs.length
  if 3 ≤ n && (["mhz", "khz", "ghz", "dbm", "pwr"].map String.data).contains (cs.drop (n - 3)) then
    String.mk (cs.take (n - 3))
  else if 2 ≤ n && (["hz", "db", "mw"].map String.data).contains (cs.drop (n - 2)) then
    String.mk (cs.take (n - 2))
  else s

/-- `cleanAndParseFloat` — trim, strip thousands separators, lower-case,
    strip one trailing unit suffix, trim again, then `parseFloat`; `NaN`
    for a missing (`undefined`) or empty value. -/
def cleanAndParseFloat (value : Option String) : JNum :=
  match value with
  | none => JNum.nan
  | some s =>
    if s = "" then JNum.nan    -- `if (!value) return NaN`
    else
      let cleanedValue := jsTrim (stripUnitSuffix (jsToLower (removeCommas (jsTrim s))))
      if cleanedValue = "" then JNum.nan
      else jsParseFloat cleanedValue

/-- `parseTimestamp` — numeric cells are epoch values, disambiguated
    seconds-vs-milliseconds by magnitude against `10^12`; non-numeric
    cells fall back to `new Date(...)` (the oracle). -/
def parseTimestamp (dp : DateOracle) (value : Option String) : Option JNum :=
  match value with
  | none => none
  | some s =>
    if s = "" then none        -- `if (!value) return null`
    else
      let trimmedValue := jsTrim s
      if isNumeric trimmedValue then
        let num := jsNumber trimmedValue
        if jsLtB (JNum.fin 1000000000000) num then some num
        else some (jsMul num (JNum.fin 1000))
      else
        match dp trimmedValue with
        | some t => some (JNum.fin t)
        | none => none

/-- `ParseOptions` — optional manual overrides for the zero-based column
    indices (frequency, power, timestamp). -/
structure ParseOptions where
  manualFreqIndex : Option Nat
  manualPowerIndex : Option Nat
  manualTimeIndex : Option Nat
deriving DecidableEq, Repr

/-- `ParseOptions = {}` — no overrides. -/
def noOptions : ParseOptions := ParseOptions.mk none none none

/-- One `SpectrumDataPoint` record. -/
structure SpectrumDataPoint where
  frequency : JNum
  power : JNum
  timestamp : Option JNum
deriving DecidableEq, Repr

/-! #### Delimiter detection (`detectDelimiter`) -/

/-- Field counts per sampled line that are greater than one:
    `sampleLines.map(l => l.split(d).length).filter(c => c > 1)`. -/
def delimCounts (sampleLines : List String) (d : Char) : List Nat :=
  (sampleLines.map (fun l => (splitChar d l.data).length)).filter (fun c => 1 < c)

/-- `counts.length < Math.min(sampleLines.length, 5) * 0.5` — the
    condition under which a candidate delimiter is discarded. -/
def delimInvalid (sampleLines : List String) (d : Char) : Bool :=
  decide (((delimCounts sampleLines d).length : ℚ) < (min sampleLines.length 5 : ℕ) * (1 / 2))

/-- Variance of the (filtered) field counts.  The source computes the
    standard deviation `Math.sqrt(variance)` and only ever compares it
    (`stddev < 0.5`, `a.stddev - b.stddev`); since the square root is
    strictly monotone those comparisons are performed here on the
    variance (against `1/4`). -/
def delimVariance (sampleLines : List String) (d : Char) : ℚ :=
  let counts := delimCounts sampleLines d
  let avg : ℚ := ((counts.foldl (fun a b => a + b) 0 : ℕ) : ℚ) / (counts.length : ℚ)
  (counts.map (fun c => ((c : ℚ) - avg) ^ 2)).foldl (fun a b => a + b) 0 / (counts.length : ℚ)

/-- One per-candidate entry of the `stats` array of `detectDelimiter`. -/
structure DelimStat where
  d : Char
  variance : ℚ
  valid : Bool
deriving DecidableEq

/-- `detectDelimiter` — try `,`, `;`, tab over the sample; discard
    candidates splitting too few lines, keep those with low field-count
    variance, pick the lowest-variance one; fall back to whitespace
    splitting (represented by `' '`). -/
def detectDelimiter (sampleLines : List String) : Char :=
  let delimiters : List Char := [',', ';', '\t']
  let stats := delimiters.map (fun d =>
    DelimStat.mk d (delimVariance sampleLines d) (!delimInvalid sampleLines d))
  let candidates := stats.filter (fun s => s.valid && decide (s.variance < 1 / 4))
  match sortJs (fun y x => decide (y.variance < x.variance)) candidates with
  | [] => ' '
  | c :: _ => c.d

/-- `parseCsvRow` — whitespace-run splitting of the trimmed row in
    whitespace mode, otherwise split at the delimiter and trim each
    field. -/
def parseCsvRow (delimiter : Char) (row : String) : List String :=
  if delimiter = ' ' then wsSplit row
  else (splitChar delimiter row.data).map (fun t => jsTrim (String.mk t))

/-! #### Header / data-row boundary detection -/

/-- The scan for the first data-like row (first cell numeric or a
    parseable timestamp) among the first ten lines, including the
    look-back at the preceding line for a header. -/
def findDataStart (dp : DateOracle) (delimiter : Char) (lines : List String) : Nat :=
  match (lines.take 10).enum.find? (fun p =>
      let cols := parseCsvRow delimiter p.2
      decide (2 ≤ cols.length) &&
        (isNumeric (cols.headD "") || (parseTimestamp dp cols.head?).isSome)) with
  | none => 0
  | some (i, line) =>
    if 0 < i then
      let cols := parseCsvRow delimiter line
      let prevCols := parseCsvRow delimiter ((lines.drop (i - 1)).headD "")
      if prevCols.length = cols.length && prevCols.any (fun val => !isNumeric val) then
        i - 1
      else i
    else i

/-- Header detection on the first relevant line and the resulting
    `(headerValues, dataLines)` split; headers are synthesised when the
    first line looks like data. -/
def splitHeader (dp : DateOracle) (delimiter : Char) (relevantLines : List String) :
    List String × List String :=
  let firstLineValues := parseCsvRow delimiter (relevantLines.headD "")
  let hasHeader := firstLineValues.any (fun val =>
    val != "" && !isNumeric val && (parseTimestamp dp (some val)).isNone)
  if hasHeader then (firstLineValues, relevantLines.drop 1)
  else
    ((List.range firstLineValues.length).map (fun i => "Column " ++ toString (i + 1)),
     relevantLines)

/-! #### Column role inference -/

def freqKeywords : List String :=
  ["freq", "frequency", "mhz", "khz", "ghz", "hertz", "hz", "channel", "band", "freq.", "f(mhz)"]

def powerKeywords : List String :=
  ["power", "dbm", "db", "level", "amplitude", "rssi", "signal", "strength", "intensity",
   "sig_str", "pwr"]

def timeKeywords : List String :=
  ["time", "timestamp", "date", "datetime", "epoch"]

/-- `scoreHeader` — 10 for an exact keyword match, otherwise one point per
    keyword occurring as a substring. -/
def scoreHeader (header : String) (keywords : List String) : Nat :=
  if keywords.contains header then 10
  else keywords.foldl (fun acc kw => acc + (if strIncludes header kw then 1 else 0)) 0

/-- One entry of the `candidates` array: a column index with its three
    keyword scores. -/
structure Candidate where
  index : Nat
  freqScore : Nat
  powerScore : Nat
  timeScore : Nat
deriving DecidableEq, Repr

/-- The value a resolved index variable holds in the source (`-1` encodes
    "unassigned"). -/
def idxVal : Option Nat → Int
  | none => -1
  | some n => n

/-- `findBestUniqueIndex` — first candidate whose index is not among the
    excluded ones. -/
def findBestUniqueIndex (primaryCandidates : List Candidate) (otherIndices : List Int) :
    Option Nat :=
  (primaryCandidates.find? (fun c => !otherIndices.contains (c.index : Int))).map
    (fun c => c.index)

/-- Lines 536-543: unique selection of the three role indices from the
    ranked candidate lists, with the freq/power conflict retry. -/
def selectIndices (freqCandidates powerCandidates timeCandidates : List Candidate) :
    Option Nat × Option Nat × Option Nat :=
  let freqIndex := findBestUniqueIndex freqCandidates []
  let powerIndex := findBestUniqueIndex powerCandidates [idxVal freqIndex]
  let pair :=
    if powerIndex = none then
      let powerRetry := findBestUniqueIndex powerCandidates []
      (findBestUniqueIndex freqCandidates [idxVal powerRetry], powerRetry)
    else (freqIndex, powerIndex)
  let timeIndex := findBestUniqueIndex timeCandidates [idxVal pair.1, idxVal pair.2]
  (pair.1, pair.2, timeIndex)

/-- The column-role inference block of `parseAndAnalyzeCsv` (lines
    507-543): keyword scoring, per-role ranking (stable descending sort),
    then `selectIndices`. -/
def inferIndices (headerValues : List String) : Option Nat × Option Nat × Option Nat :=
  let lowerCaseHeaders := headerValues.map (fun h => jsTrim (jsToLower h))
  let candidates := lowerCaseHeaders.enum.map (fun p =>
    Candidate.mk p.1 (scoreHeader p.2 freqKeywords) (scoreHeader p.2 powerKeywords)
      (scoreHeader p.2 timeKeywords))
  selectIndices
    (sortJs (fun y x => decide (x.freqScore < y.freqScore))
      (candidates.filter (fun c => decide (0 < c.freqScore))))
    (sortJs (fun y x => decide (x.powerScore < y.powerScore))
      (candidates.filter (fun c => decide (0 < c.powerScore))))
    (sortJs (fun y x => decide (x.timeScore < y.timeScore))
      (candidates.filter (fun c => decide (0 < c.timeScore))))

/-- The resolved `(freqIndex, powerIndex, timeIndex)` after the manual
    overrides and the optional inference block: inference runs unless both
    the frequency and the power override are supplied, and when it runs it
    overwrites all three indices. -/
def resolveIndices (headerValues : List String) (options : ParseOptions) :
    Option Nat × Option Nat × Option Nat :=
  if options.manualFreqIndex.isNone || options.manualPowerIndex.isNone then
    inferIndices headerValues
  else
    (options.manualFreqIndex, options.manualPowerIndex, options.manualTimeIndex)

/-! #### Row parsing loop, aggregation and report assembly -/

/-- State threaded through the `for (const line of dataLines)` loop:
    retained records, running power sum, running min/max timestamp
    (initialised to `+Infinity` / `-Infinity`). -/
structure BuildSt where
  records : List SpectrumDataPoint
  powerSum : JNum
  minT : JNum
  maxT : JNum
deriving DecidableEq, Repr

def initialBuildSt : BuildSt :=
  BuildSt.mk [] (JNum.fin 0) (JNum.inf true) (JNum.inf false)

/-- One iteration of the row loop: parse the cells at the resolved
    indices, retain the row only when neither frequency nor power is
    `NaN`, and update the aggregates. -/
def buildStep (dp : DateOracle) (delimiter : Char) (f p : Nat) (tIdx : Option Nat)
    (st : BuildSt) (line : String) : BuildSt :=
  let values := parseCsvRow delimiter line
  if max f p < values.length then
    let frequency := cleanAndParseFloat (values.get? f)
    let power := cleanAndParseFloat (values.get? p)
    let timestamp :=
      match tIdx with
      | some t => parseTimestamp dp (values.get? t)
      | none => none
    if !frequency.isNaN && !power.isNaN then
      BuildSt.mk (st.records ++ [SpectrumDataPoint.mk frequency power timestamp])
        (jsAdd st.powerSum power)
        (match timestamp with
         | some ts => jsMin st.minT ts
         | none => st.minT)
        (match timestamp with
         | some ts => jsMax st.maxT ts
         | none => st.maxT)
    else st
  else st

/-- The whole row loop. -/
def buildRecords (dp : DateOracle) (delimiter : Char) (f p : Nat) (tIdx : Option Nat)
    (dataLines : List String) : BuildSt :=
  dataLines.foldl (buildStep dp delimiter f p tIdx) initialBuildSt

/-- What one line contributes: the `DataRecord` it yields, if any.  (Not
    part of the source text; it is the per-line summary used to state
    facts about the loop above.) -/
def rowRecord (dp : DateOracle) (delimiter : Char) (f p : Nat) (tIdx : Option Nat)
    (line : String) : Option SpectrumDataPoint :=
  let values := parseCsvRow delimiter line
  if max f p < values.length then
    let frequency := cleanAndParseFloat (values.get? f)
    let power := cleanAndParseFloat (values.get? p)
    let timestamp :=
      match tIdx with
      | some t => parseTimestamp dp (values.get? t)
      | none => none
    if !frequency.isNaN && !power.isNaN then
      some (SpectrumDataPoint.mk frequency power timestamp)
    else none
  else none

structure TimeStats where
  startMs : JNum     -- `start`
  endMs : JNum       -- `end`
  durationSeconds : JNum
deriving DecidableEq, Repr

structure RangeStats where
  min : JNum
  max : JNum
deriving DecidableEq, Repr

structure PowerStats where
  min : JNum
  max : JNum
  avg : JNum
deriving DecidableEq, Repr

structure SamplesBlock where
  firstRows : List SpectrumDataPoint
  lastRows : List SpectrumDataPoint
  peakPowerRows : List SpectrumDataPoint
deriving DecidableEq, Repr

/-- `FileAnalysisReport` (the `fileName` field, which merely echoes the
    host `File` object, is omitted). -/
structure FileAnalysisReport where
  rowCount : Nat
  columnCount : Nat
  headers : List String
  statsFrequency : RangeStats
  statsPower : PowerStats
  samples : SamplesBlock
  timeStats : Option TimeStats
deriving DecidableEq, Repr

/-- Placeholder record for the (unreachable) empty-list head/last
    accesses below; the loop guarantees at least one record before the
    report is built. -/
def dummyPoint : SpectrumDataPoint := SpectrumDataPoint.mk JNum.nan JNum.nan none

/-- The comparator of `sortedByPower`: `(a, b) => b.power - a.power`,
    i.e. `y` comes before `x` exactly when `x.power < y.power`. -/
def powerDesc (y x : SpectrumDataPoint) : Bool := jsLtB x.power y.power

/-- The comparator of `sortedByFreq`: `(a, b) => a.frequency - b.frequency`. -/
def freqAsc (y x : SpectrumDataPoint) : Bool := jsLtB y.frequency x.frequency

/-- Lines 585-621: sorting, stats, bounded samples and the optional
    `timeStats` block. -/
def mkReport (headerValues : List String) (dataLines : List String) (st : BuildSt) :
    FileAnalysisReport :=
  let sortedByPower := sortJs powerDesc st.records
  let sortedByFreq := sortJs freqAsc st.records
  FileAnalysisReport.mk
    dataLines.length
    headerValues.length
    headerValues
    (RangeStats.mk (sortedByFreq.headD dummyPoint).frequency
      (sortedByFreq.getLastD dummyPoint).frequency)
    (PowerStats.mk (sortedByPower.getLastD dummyPoint).power
      (sortedByPower.headD dummyPoint).power
      (jsDiv st.powerSum (JNum.fin (st.records.length : ℚ))))
    (SamplesBlock.mk (st.records.take 10)
      (st.records.drop (st.records.length - 10))
      (sortedByPower.take 10))
    (if st.minT.isFinite && st.maxT.isFinite then
      some (TimeStats.mk st.minT st.maxT (jsDiv (jsSub st.maxT st.minT) (JNum.fin 1000)))
     else none)

/-- The error outcomes of `parseAndAnalyzeCsv` (each ordinary `Error`
    message is represented by its own constructor; `ColumnDetectionError`
    carries the headers and up to five raw sample rows). -/
inductive ParseError where
  | emptyFile : ParseError                    -- "File is empty or could not be read."
  | noDataRow : ParseError                    -- "File must contain at least one data row."
  | noValidDataRows : ParseError              -- "No valid data rows found."
  | columnDetection (headers : List String) (sampleData : List (List String)) : ParseError
  | headerButNoData : ParseError              -- "File contains a header but no data rows."
  | noValidNumericData : ParseError           -- "No valid numerical data found. ..."
deriving DecidableEq, Repr

/-! #### The staged pipeline.  Each stage is named so that theorems can
    speak about intermediate values; `parseAndAnalyzeCsv` chains them in
    source order. -/

/-- `text.trim().split(/\r\n?|\n/).filter(line => line.trim() !== '')`. -/
def linesOf (text : String) : List String :=
  ((splitNewlines (trimChars text.data)).map String.mk).filter
    (fun line => jsTrim line != "")

/-- `detectDelimiter(lines.slice(0, 50))`. -/
def delimOf (text : String) : Char := detectDelimiter ((linesOf text).take 50)

def dataStartOf (dp : DateOracle) (text : String) : Nat :=
  findDataStart dp (delimOf text) (linesOf text)

/-- `lines.slice(dataStartIndex)`. -/
def relevantOf (dp : DateOracle) (text : String) : List String :=
  (linesOf text).drop (dataStartOf dp text)

def headerPairOf (dp : DateOracle) (text : String) : List String × List String :=
  splitHeader dp (delimOf text) (relevantOf dp text)

def headersOf (dp : DateOracle) (text : String) : List String := (headerPairOf dp text).1

def dataLinesOf (dp : DateOracle) (text : String) : List String := (headerPairOf dp text).2

def indicesOf (dp : DateOracle) (text : String) (options : ParseOptions) :
    Option Nat × Option Nat × Option Nat :=
  resolveIndices (headersOf dp text) options

/-- `dataLines.slice(0, 5).map(line => parseCsvRow(line))` — the sample
    rows carried by a `ColumnDetectionError`. -/
def sampleRowsOf (dp : DateOracle) (text : String) : List (List String) :=
  ((dataLinesOf dp text).take 5).map (parseCsvRow (delimOf text))

/-- The retained records of a parse (empty when column resolution fails,
    in which case the pipeline errors out before the row loop). -/
def recordsOf (dp : DateOracle) (text : String) (options : ParseOptions) :
    List SpectrumDataPoint :=
  match indicesOf dp text options with
  | (some f, some p, tIdx) =>
    (buildRecords dp (delimOf text) f p tIdx (dataLinesOf dp text)).records
  | _ => []

/-- `parseAndAnalyzeCsv` — the full pipeline, from the loaded text to the
    report or error, with every check in source order. -/
def parseAndAnalyzeCsv (dp : DateOracle) (text : String) (options : ParseOptions) :
    Except ParseError FileAnalysisReport :=
  if text = "" then .error .emptyFile
  else if (linesOf text).length < 1 then .error .noDataRow
  else if (relevantOf dp text).length < 1 then .error .noValidDataRows
  else
    match indicesOf dp text options with
    | (some f, some p, tIdx) =>
      if (dataLinesOf dp text).length = 0 then .error .headerButNoData
      else
        let st := buildRecords dp (delimOf text) f p tIdx (dataLinesOf dp text)
        if st.records.length = 0 then .error .noValidNumericData
        else .ok (mkReport (headersOf dp text) (dataLinesOf dp text) st)
    | (none, _, _) => .error (.columnDetection (headersOf dp text) (sampleRowsOf dp text))
    | (some _, none, _) => .error (.columnDetection (headersOf dp text) (sampleRowsOf dp text))

/-- The distinguished failure outcome (`ColumnDetectionError`), as a test
    on the result. -/
def isColumnDetectionFailure : Except ParseError FileAnalysisReport → Bool
  | .error (.columnDetection _ _) => true
  | _ => false

/-- Report of the C7 witness input: two data lines, one of which has
    unparseable cells. -/
def c7rep : FileAnalysisReport :=
  (parseAndAnalyzeCsv dpNone "freq,power\n100,-50\nx,y" noOptions).toOption.getD
    (mkReport [] [] initialBuildSt)

/-- Report of the C1 witness input. -/
def c1rep : FileAnalysisReport :=
  (parseAndAnalyzeCsv dpNone "freq,power\n100,-50\nx,y" noOptions).toOption.getD
    (mkReport [] [] initialBuildSt)

def c5text : String := "freq,power\n100,-50\n200,-50\n300,-40"

/-- Report of the C5 witness input (three records, two tied on power). -/
def c5rep : FileAnalysisReport :=
  (parseAndAnalyzeCsv dpNone c5text noOptions).toOption.getD (mkReport [] [] initialBuildSt)

/-- The delimiter-selection rule exactly as claim C3 words it: a candidate
    is discarded when fewer than half of the sampled lines split into more
    than one field; among the survivors with variance below the threshold
    the lowest-variance one (earliest on ties) is selected, else
    whitespace.  Written from the claim for comparison with
    `detectDelimiter`. -/
def claimC3Delimiter (sampleLines : List String) : Char :=
  let survivors := [',', ';', '\t'].filter (fun d =>
    decide (sampleLines.length ≤ 2 * (delimCounts sampleLines d).length) &&
    decide (delimVariance sampleLines d < 1 / 4))
  match argminFirst (fun d => delimVariance sampleLines d) survivors with
  | none => ' '
  | some d => d

/-- The same rule with the discard threshold the source actually uses:
    half of `min(sample size, 5)` lines rather than half of all sampled
    lines. -/
def amendedC3Delimiter (sampleLines : List String) : Char :=
  let survivors := [',', ';', '\t'].filter (fun d =>
    decide (min sampleLines.length 5 ≤ 2 * (delimCounts sampleLines d).length) &&
    decide (delimVariance sampleLines d < 1 / 4))
  match argminFirst (fun d => delimVariance sampleLines d) survivors with
  | none => ' '
  | some d => d

def c3lines : List String := List.replicate 47 "x" ++ ["1;2", "3;4", "5;6"]

/-- The timestamps carried by the retained records, in file order. -/
def timestampsOf (dp : DateOracle) (text : String) (options : ParseOptions) : List JNum :=
  (recordsOf dp text options).filterMap (fun rec => rec.timestamp)

def c6text : String := "time,freq,power\n1000,100,-50\n2000,200,-60"

/-- Report of the C6 witness input (two records, seconds-scale
    timestamps). -/
def c6rep : FileAnalysisReport :=
  (parseAndAnalyzeCsv dpNone c6text noOptions).toOption.getD (mkReport [] [] initialBuildSt)

def c6tst : TimeStats := c6rep.timeStats.getD (TimeStats.mk JNum.nan JNum.nan JNum.nan)

/-! ### Theorems -/

theorem length_insertJs (p : α → α → Bool) (x : α) (l : List α) :
    (insertJs p x l).length = l.length + 1 := by
  induction l with
  | nil => rfl
  | cons y ys ih =>
    by_cases h : p y x = true <;> simp [insertJs, h, ih]

theorem length_sortJs (p : α → α → Bool) (l : List α) :
    (sortJs p l).length = l.length := by
  induction l with
  | nil => rfl
  | cons x xs ih => simp [sortJs, length_insertJs, ih]

theorem mem_insertJs (p : α → α → Bool) (x a : α) (l : List α) :
    a ∈ insertJs p x l ↔ a = x ∨ a ∈ l := by
  induction l with
  | nil => simp [insertJs]
  | cons y ys ih =>
    by_cases h : p y x = true <;> (simp [insertJs, h, ih]; try tauto)

theorem mem_sortJs (p : α → α → Bool) (a : α) (l : List α) :
    a ∈ sortJs p l ↔ a ∈ l := by
  induction l with
  | nil => simp [sortJs]
  | cons x xs ih => simp [sortJs, mem_insertJs, ih]

theorem head_insertJs (p : α → α → Bool) (x : α) (l : List α) :
    (insertJs p x l).head? =
      match l.head? with
      | none => some x
      | some y => if p y x then some y else some x := by
  cases l with
  | nil => rfl
  | cons y ys => by_cases h : p y x = true <;> simp [insertJs, h]

/-- Sortedness of the output of `sortJs`, phrased as the absence of
    inversions: no element strictly precedes its left neighbour. -/
theorem chain_sortJs (p : α → α → Bool) (hasym : ∀ a b, p a b = true → p b a = false)
    (l : List α) : (sortJs p l).Chain' (fun a b => p b a = false) := by
  have hins : ∀ (x : α) (m : List α), m.Chain' (fun a b => p b a = false) →
      (insertJs p x m).Chain' (fun a b => p b a = false) := by
    intro x m hm
    induction m with
    | nil => simp [insertJs]
    | cons y ys ih =>
      by_cases h : p y x = true
      · have hys : ys.Chain' (fun a b => p b a = false) := (List.chain'_cons'.mp hm).2
        have ih2 := ih hys
        simp only [insertJs, h, if_true]
        refine List.chain'_cons'.mpr ⟨?_, ih2⟩
        intro z hz
        rw [head_insertJs] at hz
        cases hys' : ys.head? with
        | none => rw [hys'] at hz; simp at hz; subst hz; exact hasym _ _ h
        | some w =>
          rw [hys'] at hz
          by_cases hw : p w x = true
          · simp [hw] at hz; subst hz
            exact (List.chain'_cons'.mp hm).1 w hys'
          · simp [hw] at hz; subst hz; exact hasym _ _ h
      · simp only [insertJs, h, if_false]
        refine List.chain'_cons'.mpr ⟨?_, hm⟩
        intro z hz
        simp at hz; subst hz
        exact Bool.eq_false_iff.mpr (fun hc => by rw [hc] at h; exact h rfl)
  induction l with
  | nil => simp [sortJs]
  | cons x xs ih => exact hins x _ ih

theorem filter_insertJs_pos (p : α → α → Bool) (cls : α → Bool) (x : α)
    (hx : cls x = true) (hnp : ∀ y, cls y = true → p y x = false) (m : List α) :
    (insertJs p x m).filter cls = x :: m.filter cls := by
  induction m with
  | nil => simp [insertJs, hx]
  | cons y ys ih =>
    by_cases h : p y x = true
    · have hy : cls y = false := by
        cases hcy : cls y with
        | false => rfl
        | true => rw [hnp y hcy] at h; exact absurd h (by simp)
      simp [insertJs, h, List.filter, hy, ih]
    · simp [insertJs, h, List.filter, hx]

theorem filter_insertJs_neg (p : α → α → Bool) (cls : α → Bool) (x : α)
    (hx : cls x = false) (m : List α) :
    (insertJs p x m).filter cls = m.filter cls := by
  induction m with
  | nil => simp [insertJs, hx]
  | cons y ys ih =>
    by_cases h : p y x = true
    · by_cases hy : cls y = true <;> simp [insertJs, h, List.filter, hy, ih]
    · simp [insertJs, h, List.filter, hx]

/-- Stability of `sortJs`: any class of mutually non-preceding elements
    (e.g. an equal-key class) appears in the output in its original
    order. -/
theorem filter_sortJs (p : α → α → Bool) (cls : α → Bool)
    (htie : ∀ a b, cls a = true → cls b = true → p a b = false)
    (l : List α) : (sortJs p l).filter cls = l.filter cls := by
  induction l with
  | nil => simp [sortJs]
  | cons x xs ih =>
    rw [sortJs]
    by_cases hx : cls x = true
    · rw [filter_insertJs_pos p cls x hx (fun y hy => htie y x hy hx), ih]
      simp [List.filter, hx]
    · have hx' : cls x = false := by simpa using hx
      rw [filter_insertJs_neg p cls x hx', ih]
      simp [List.filter, hx']

theorem head_sortJs_argmin (key : α → ℚ) (l : List α) :
    (sortJs (fun y x => decide (key y < key x)) l).head? = argminFirst key l := by
  induction l with
  | nil => rfl
  | cons x xs ih =>
    rw [sortJs, head_insertJs, ih]
    cases h : argminFirst key xs with
    | none => simp [argminFirst, h]
    | some m => by_cases hk : key m < key x <;> simp [argminFirst, h, hk]

/-! ### Structural lemmas about the pipeline -/

theorem buildStep_eq (dp : DateOracle) (delimiter : Char) (f p : Nat) (tIdx : Option Nat)
    (st : BuildSt) (line : String) :
    buildStep dp delimiter f p tIdx st line =
      match rowRecord dp delimiter f p tIdx line with
      | none => st
      | some r =>
        BuildSt.mk (st.records ++ [r]) (jsAdd st.powerSum r.power)
          (match r.timestamp with
           | some ts => jsMin st.minT ts
           | none => st.minT)
          (match r.timestamp with
           | some ts => jsMax st.maxT ts
           | none => st.maxT) := by
  dsimp only [buildStep, rowRecord]
  split_ifs <;> rfl

/-- The row loop, summarised per line: the records are the
    `rowRecord`-survivors in order, and each aggregate is the
    corresponding left fold over them. -/
theorem buildRecords_fold (dp : DateOracle) (delimiter : Char) (f p : Nat)
    (tIdx : Option Nat) (ls : List String) (st : BuildSt) :
    ls.foldl (buildStep dp delimiter f p tIdx) st =
      BuildSt.mk (st.records ++ ls.filterMap (rowRecord dp delimiter f p tIdx))
        (((ls.filterMap (rowRecord dp delimiter f p tIdx)).map
            (fun r => r.power)).foldl jsAdd st.powerSum)
        (((ls.filterMap (rowRecord dp delimiter f p tIdx)).filterMap
            (fun r => r.timestamp)).foldl jsMin st.minT)
        (((ls.filterMap (rowRecord dp delimiter f p tIdx)).filterMap
            (fun r => r.timestamp)).foldl jsMax st.maxT) := by
  induction ls generalizing st with
  | nil => simp
  | cons line rest ih =>
    rw [List.foldl_cons, buildStep_eq]
    cases hrec : rowRecord dp delimiter f p tIdx line with
    | none => simp only [List.filterMap_cons, hrec, ih]
    | some r =>
      cases hts : r.timestamp with
      | none =>
        simp only [List.filterMap_cons, hrec, hts, ih, List.map_cons, List.foldl_cons,
          List.append_assoc, List.singleton_append]
      | some ts =>
        simp only [List.filterMap_cons, hrec, hts, ih, List.map_cons, List.foldl_cons,
          List.append_assoc, List.singleton_append]

theorem buildRecords_records (dp : DateOracle) (delimiter : Char) (f p : Nat)
    (tIdx : Option Nat) (ls : List String) :
    (buildRecords dp delimiter f p tIdx ls).records =
      ls.filterMap (rowRecord dp delimiter f p tIdx) := by
  rw [buildRecords, buildRecords_fold]
  simp [initialBuildSt]

theorem buildRecords_minT (dp : DateOracle) (delimiter : Char) (f p : Nat)
    (tIdx : Option Nat) (ls : List String) :
    (buildRecords dp delimiter f p tIdx ls).minT =
      (((buildRecords dp delimiter f p tIdx ls).records.filterMap
          (fun r => r.timestamp)).foldl jsMin (JNum.inf true)) := by
  rw [buildRecords, buildRecords_fold]
  simp [initialBuildSt]

theorem buildRecords_maxT (dp : DateOracle) (delimiter : Char) (f p : Nat)
    (tIdx : Option Nat) (ls : List String) :
    (buildRecords dp delimiter f p tIdx ls).maxT =
      (((buildRecords dp delimiter f p tIdx ls).records.filterMap
          (fun r => r.timestamp)).foldl jsMax (JNum.inf false)) := by
  rw [buildRecords, buildRecords_fold]
  simp [initialBuildSt]

/-- A retained record never has `NaN` frequency or power (the row-loop
    guard). -/
theorem rowRecord_not_nan (dp : DateOracle) (delimiter : Char) (f p : Nat)
    (tIdx : Option Nat) (line : String) (r : SpectrumDataPoint)
    (h : rowRecord dp delimiter f p tIdx line = some r) :
    r.frequency.isNaN = false ∧ r.power.isNaN = false := by
  dsimp only [rowRecord] at h
  split_ifs at h with h1 h2
  · simp only [Option.some.injEq] at h
    subst h
    constructor
    · exact Bool.not_eq_true _ ▸ (by
        rcases Bool.and_eq_true .. |>.mp h2 with ⟨hf, _⟩
        simpa using hf)
    · rcases Bool.and_eq_true .. |>.mp h2 with ⟨_, hp⟩
      simpa using hp

/-- Destructuring a successful parse: column resolution produced concrete
    frequency and power indices, at least one record was retained, and the
    report is `mkReport` of the loop state. -/
theorem parse_ok_elim (dp : DateOracle) (text : String) (options : ParseOptions)
    (r : FileAnalysisReport) (h : parseAndAnalyzeCsv dp text options = .ok r) :
    ∃ f p tIdx, indicesOf dp text options = (some f, some p, tIdx) ∧
      (buildRecords dp (delimOf text) f p tIdx (dataLinesOf dp text)).records ≠ [] ∧
      r = mkReport (headersOf dp text) (dataLinesOf dp text)
            (buildRecords dp (delimOf text) f p tIdx (dataLinesOf dp text)) := by
  dsimp only [parseAndAnalyzeCsv] at h
  by_cases h0 : text = ""
  · rw [if_pos h0] at h; exact absurd h (by simp)
  rw [if_neg h0] at h
  by_cases hl : (linesOf text).length < 1
  · rw [if_pos hl] at h; exact absurd h (by simp)
  rw [if_neg hl] at h
  by_cases hr : (relevantOf dp text).length < 1
  · rw [if_pos hr] at h; exact absurd h (by simp)
  rw [if_neg hr] at h
  rcases hidx : indicesOf dp text options with ⟨fo, po, tIdx⟩
  rw [hidx] at h
  cases fo with
  | none => dsimp only at h; exact absurd h (by simp)
  | some f =>
    cases po with
    | none => dsimp only at h; exact absurd h (by simp)
    | some p =>
      dsimp only at h
      by_cases h1 : (dataLinesOf dp text).length = 0
      · rw [if_pos h1] at h; exact absurd h (by simp)
      rw [if_neg h1] at h
      by_cases h2 :
          (buildRecords dp (delimOf text) f p tIdx (dataLinesOf dp text)).records.length = 0
      · rw [if_pos h2] at h; exact absurd h (by simp)
      rw [if_neg h2] at h
      simp only [Except.ok.injEq] at h
      exact ⟨f, p, tIdx, rfl, fun hnil => h2 (by rw [hnil]; rfl), h.symm⟩

theorem findBestUniqueIndex_not_mem (cands : List Candidate) (others : List Int) (n : Nat)
    (h : findBestUniqueIndex cands others = some n) : ((n : Int) ∈ others) → False := by
  intro hmem
  unfold findBestUniqueIndex at h
  cases hf : cands.find? (fun c => !others.contains (c.index : Int)) with
  | none => rw [hf] at h; exact absurd h (by simp)
  | some c =>
    rw [hf] at h
    simp only [Option.map_some'] at h
    have hp := List.find?_some hf
    simp only [Bool.not_eq_true'] at hp
    have : c.index = n := by simpa using h
    rw [this] at hp
    rw [List.contains_eq_any_beq] at hp
    simp only [List.any_eq_false] at hp
    have := hp _ hmem
    simp at this

theorem selectIndices_distinct (fc pc tc : List Candidate) (fo po tio : Option Nat)
    (h : selectIndices fc pc tc = (fo, po, tio)) :
    (∀ pi : Nat, po = some pi → fo ≠ some pi) ∧
    (∀ ti : Nat, tio = some ti → fo ≠ some ti ∧ po ≠ some ti) := by
  dsimp only [selectIndices] at h
  by_cases hnone : findBestUniqueIndex pc [idxVal (findBestUniqueIndex fc [])] = none
  · rw [if_pos hnone] at h
    dsimp only at h
    simp only [Prod.mk.injEq] at h
    obtain ⟨h1, h2, h3⟩ := h
    constructor
    · intro pi hpi heq
      rw [← h1] at heq
      exact findBestUniqueIndex_not_mem _ _ _ heq (by rw [h2, hpi]; simp [idxVal])
    · intro ti hti
      rw [← h3] at hti
      constructor
      · intro heq
        exact findBestUniqueIndex_not_mem _ _ _ hti (by rw [h1, heq]; simp [idxVal])
      · intro heq
        exact findBestUniqueIndex_not_mem _ _ _ hti (by rw [h2, heq]; simp [idxVal])
  · rw [if_neg hnone] at h
    dsimp only at h
    simp only [Prod.mk.injEq] at h
    obtain ⟨h1, h2, h3⟩ := h
    constructor
    · intro pi hpi heq
      rw [← h2] at hpi
      exact findBestUniqueIndex_not_mem _ _ _ hpi (by rw [h1, heq]; simp [idxVal])
    · intro ti hti
      rw [← h3] at hti
      constructor
      · intro heq
        exact findBestUniqueIndex_not_mem _ _ _ hti (by rw [h1, heq]; simp [idxVal])
      · intro heq
        exact findBestUniqueIndex_not_mem _ _ _ hti (by rw [h2, heq]; simp [idxVal])

/-- Claim C10: whenever automatic column-role inference assigns column
    indices, the assigned roles are pairwise distinct — the power index,
    when assigned, differs from the frequency index, and the timestamp
    index, when assigned, differs from both; no column is given two roles
    by inference. -/
theorem claim_C10 (headerValues : List String) (fo po tio : Option Nat)
    (h : inferIndices headerValues = (fo, po, tio)) :
    (∀ pi : Nat, po = some pi → fo ≠ some pi) ∧
    (∀ ti : Nat, tio = some ti → fo ≠ some ti ∧ po ≠ some ti) := by
  dsimp only [inferIndices] at h
  exact selectIndices_distinct _ _ _ _ _ _ h

/-- Witness for C10 at the concrete header row `time,frequency,power`:
    inference assigns frequency column 1, power column 2, timestamp
    column 0, and these are pairwise distinct. -/
theorem claim_C10_witness :
    inferIndices ["time", "frequency", "power"] = (some 1, some 2, some 0) ∧
    (some 1 : Option Nat) ≠ some 2 ∧ (some 1 : Option Nat) ≠ some 0 ∧
    (some 2 : Option Nat) ≠ some 0 := by
  have hinfer : inferIndices ["time", "frequency", "power"] = (some 1, some 2, some 0) := by
    decide
  have h := claim_C10 ["time", "frequency", "power"] (some 1) (some 2) (some 0) hinfer
  exact ⟨hinfer, h.1 2 rfl, (h.2 0 rfl).1, (h.2 0 rfl).2⟩

/-- Claim C2: supplying explicit override indices for both the frequency
    and the power column makes `parseAndAnalyzeCsv` use exactly those
    indices — automatic column-role inference is skipped — and the result
    is never a `ColumnDetectionError`, whatever the text and the headers
    in it. -/
theorem claim_C2 (dp : DateOracle) (text : String) (f p : Nat) (t : Option Nat) :
    resolveIndices (headersOf dp text) (ParseOptions.mk (some f) (some p) t) =
      (some f, some p, t) ∧
    isColumnDetectionFailure
      (parseAndAnalyzeCsv dp text (ParseOptions.mk (some f) (some p) t)) = false := by
  have hres : resolveIndices (headersOf dp text) (ParseOptions.mk (some f) (some p) t) =
      (some f, some p, t) := rfl
  refine ⟨hres, ?_⟩
  have hidx : indicesOf dp text (ParseOptions.mk (some f) (some p) t) = (some f, some p, t) :=
    hres
  dsimp only [parseAndAnalyzeCsv]
  rw [hidx]
  dsimp only
  split_ifs <;> rfl

theorem mkReport_rowCount (hs ds : List String) (st : BuildSt) :
    (mkReport hs ds st).rowCount = ds.length := rfl

theorem mkReport_samples (hs ds : List String) (st : BuildSt) :
    (mkReport hs ds st).samples =
      SamplesBlock.mk (st.records.take 10) (st.records.drop (st.records.length - 10))
        ((sortJs powerDesc st.records).take 10) := rfl

theorem mkReport_timeStats (hs ds : List String) (st : BuildSt) :
    (mkReport hs ds st).timeStats =
      (if st.minT.isFinite && st.maxT.isFinite then
        some (TimeStats.mk st.minT st.maxT (jsDiv (jsSub st.maxT st.minT) (JNum.fin 1000)))
       else none) := rfl

theorem recordsOf_eq (dp : DateOracle) (text : String) (options : ParseOptions)
    (f p : Nat) (tIdx : Option Nat)
    (hidx : indicesOf dp text options = (some f, some p, tIdx)) :
    recordsOf dp text options =
      (buildRecords dp (delimOf text) f p tIdx (dataLinesOf dp text)).records := by
  rw [recordsOf, hidx]

/-- Claim C7: for every successful parse, `rowCount` equals the number of
    data-section lines (header excluded), including lines later dropped for
    an unparseable frequency or power cell; the retained-record count is
    only bounded by it. -/
theorem claim_C7 (dp : DateOracle) (text : String) (options : ParseOptions)
    (r : FileAnalysisReport) (h : parseAndAnalyzeCsv dp text options = .ok r) :
    r.rowCount = (dataLinesOf dp text).length ∧
    (recordsOf dp text options).length ≤ (dataLinesOf dp text).length := by
  obtain ⟨f, p, tIdx, hidx, hne, hrep⟩ := parse_ok_elim dp text options r h
  subst hrep
  refine ⟨mkReport_rowCount _ _ _, ?_⟩
  rw [recordsOf_eq dp text options f p tIdx hidx, buildRecords_records]
  exact List.length_filterMap_le _ _

/-- Witness for C7: the input has two data-section lines, the second of
    which is dropped (`x,y`), yet `rowCount = 2` while only one record is
    retained. -/
theorem claim_C7_witness :
    c7rep.rowCount = (dataLinesOf dpNone "freq,power\n100,-50\nx,y").length ∧
    (recordsOf dpNone "freq,power\n100,-50\nx,y" noOptions).length ≤
      (dataLinesOf dpNone "freq,power\n100,-50\nx,y").length ∧
    c7rep.rowCount = 2 ∧
    (recordsOf dpNone "freq,power\n100,-50\nx,y" noOptions).length = 1 := by
  have h := claim_C7 dpNone "freq,power\n100,-50\nx,y" noOptions c7rep rfl
  exact ⟨h.1, h.2, rfl, rfl⟩

theorem dataStartOf_lt (dp : DateOracle) (text : String) (h : linesOf text ≠ []) :
    dataStartOf dp text < (linesOf text).length := by
  have hpos : 0 < (linesOf text).length := List.length_pos.mpr h
  dsimp only [dataStartOf, findDataStart]
  cases hf : ((linesOf text).take 10).enum.find? (fun p =>
      let cols := parseCsvRow (delimOf text) p.2
      decide (2 ≤ cols.length) &&
        (isNumeric (cols.headD "") || (parseTimestamp dp cols.head?).isSome)) with
  | none => exact hpos
  | some pr =>
    obtain ⟨i, line⟩ := pr
    have hmem := List.mem_of_find?_eq_some hf
    have hgl := List.mk_mem_enum_iff_getElem?.mp hmem
    have hilt : i < ((linesOf text).take 10).length := (List.getElem?_eq_some.mp hgl).1
    have hile : i < (linesOf text).length :=
      lt_of_lt_of_le hilt (by rw [List.length_take]; exact min_le_right _ _)
    dsimp only
    split_ifs <;> omega

theorem relevantOf_ne_nil (dp : DateOracle) (text : String) (h : linesOf text ≠ []) :
    relevantOf dp text ≠ [] := by
  dsimp only [relevantOf]
  rw [Ne, List.drop_eq_nil_iff, not_le]
  exact dataStartOf_lt dp text h

/-- Claim C9: when inference leaves frequency or power unassigned, the
    result is the `ColumnDetectionError` (with the headers and up to five
    sample rows) — even when the data section is empty, since the
    header-but-no-data check is only reachable after both indices
    resolve. -/
theorem claim_C9 (dp : DateOracle) (text : String) (options : ParseOptions)
    (hne : linesOf text ≠ [])
    (hfail : (indicesOf dp text options).1 = none ∨
      (indicesOf dp text options).2.1 = none) :
    parseAndAnalyzeCsv dp text options =
      .error (.columnDetection (headersOf dp text) (sampleRowsOf dp text)) := by
  have htext : text ≠ "" := by
    intro h0
    apply hne
    rw [h0]
    rfl
  have hlen : ¬ (linesOf text).length < 1 := by
    intro hl
    exact hne (List.length_eq_zero.mp (Nat.lt_one_iff.mp hl))
  have hrel : ¬ (relevantOf dp text).length < 1 := by
    intro hl
    exact relevantOf_ne_nil dp text hne (List.length_eq_zero.mp (Nat.lt_one_iff.mp hl))
  dsimp only [parseAndAnalyzeCsv]
  rw [if_neg htext, if_neg hlen, if_neg hrel]
  rcases hidx : indicesOf dp text options with ⟨fo, po, tIdx⟩
  rw [hidx] at hfail
  cases fo with
  | none => rfl
  | some f =>
    cases po with
    | none => rfl
    | some p =>
      exact absurd hfail (by simp)

/-- Witness for C9: the single-line input `A;B` yields a header, an empty
    data section, unassignable roles — and the column-detection failure
    (not the header-but-no-data error). -/
theorem claim_C9_witness :
    parseAndAnalyzeCsv dpNone "A;B" noOptions =
      .error (.columnDetection (headersOf dpNone "A;B") (sampleRowsOf dpNone "A;B")) ∧
    headersOf dpNone "A;B" = ["A", "B"] ∧
    dataLinesOf dpNone "A;B" = [] ∧
    sampleRowsOf dpNone "A;B" = [] := by
  have h := claim_C9 dpNone "A;B" noOptions (by decide) (Or.inl (by decide))
  exact ⟨h, rfl, rfl, rfl⟩

/-- Counterexample to claim C4 as stated: with headers
    `frequency,power` and only a frequency override (`manualFreqIndex = 1`)
    supplied, inference still runs and assigns frequency to column 0 — the
    supplied index is not the index used.  The full pipeline confirms it:
    the frequency statistics come from column 0 (value 100), not column 1
    (value -50). -/
theorem claim_C4_counterexample :
    (ParseOptions.mk (some 1) none none).manualFreqIndex = some 1 ∧
    resolveIndices ["frequency", "power"] (ParseOptions.mk (some 1) none none) =
      (some 0, some 1, none) ∧
    (resolveIndices ["frequency", "power"]
      (ParseOptions.mk (some 1) none none)).1 ≠ some 1 ∧
    (parseAndAnalyzeCsv dpNone "frequency,power\n100,-50"
        (ParseOptions.mk (some 1) none none)).toOption.map
      (fun r => r.statsFrequency.min) = some (JNum.fin 100) := by
  refine ⟨rfl, by decide, by decide, rfl⟩

/-- Claim C4, amended: a supplied index is used exactly when both the
    frequency and the power override are supplied — then all three
    (including the optional timestamp) are taken verbatim; when either of
    the two is missing, inference runs and overwrites all three indices,
    ignoring any partially supplied overrides. -/
theorem claim_C4_amended :
    (∀ (headerValues : List String) (options : ParseOptions) (f p : Nat),
      options.manualFreqIndex = some f → options.manualPowerIndex = some p →
      resolveIndices headerValues options = (some f, some p, options.manualTimeIndex)) ∧
    (∀ (headerValues : List String) (options : ParseOptions),
      options.manualFreqIndex = none ∨ options.manualPowerIndex = none →
      resolveIndices headerValues options = inferIndices headerValues) := by
  constructor
  · intro headerValues options f p hf hp
    rw [resolveIndices, if_neg (by rw [hf, hp]; simp), hf, hp]
  · intro headerValues options hor
    rcases hor with h | h
    · rw [resolveIndices, if_pos (by rw [h]; simp)]
    · rw [resolveIndices, if_pos (by rw [h]; simp)]

/-- Witness for the amended C4: both overrides supplied are used verbatim
    (even against misleading headers), and a lone frequency override is
    ignored in favour of inference. -/
theorem claim_C4_witness :
    resolveIndices ["frequency", "power"] (ParseOptions.mk (some 5) (some 7) (some 3)) =
      (some 5, some 7, some 3) ∧
    resolveIndices ["frequency", "power"] (ParseOptions.mk (some 1) none none) =
      inferIndices ["frequency", "power"] := by
  exact ⟨claim_C4_amended.1 ["frequency", "power"] _ 5 7 rfl rfl,
    claim_C4_amended.2 ["frequency", "power"] _ (Or.inr rfl)⟩

/-- Counterexample to claim C1 as stated: the power cell `1e999` parses
    (`parseFloat`) to `Infinity` — not `NaN` — so the row is retained with
    a non-finite power, which also becomes `stats.power.max`. -/
theorem claim_C1_counterexample :
    (parseAndAnalyzeCsv dpNone "freq,power\n100,1e999" noOptions).toOption.map
      (fun r => (r.samples.firstRows.map (fun rec => rec.power), r.statsPower.max)) =
      some ([JNum.inf true], JNum.inf true) ∧
    (JNum.inf true).isFinite = false ∧
    cleanAndParseFloat (some "1e999") = JNum.inf true := by
  refine ⟨rfl, rfl, by decide⟩

theorem mkReport_samples_subset (hs ds : List String) (st : BuildSt)
    (rec : SpectrumDataPoint)
    (hmem : rec ∈ (mkReport hs ds st).samples.firstRows ++
      (mkReport hs ds st).samples.lastRows ++ (mkReport hs ds st).samples.peakPowerRows) :
    rec ∈ st.records := by
  rw [mkReport_samples] at hmem
  rcases List.mem_append.mp hmem with hmem2 | hmem2
  · rcases List.mem_append.mp hmem2 with hmem3 | hmem3
    · exact List.take_subset _ _ hmem3
    · exact List.drop_subset _ _ hmem3
  · have hmem3 := List.take_subset 10 _ hmem2
    exact (mem_sortJs powerDesc rec _).mp hmem3

/-- Claim C1, amended: a row is retained exactly when both its frequency
    and power cells parse to a number — possibly an infinity on overflow,
    but never `NaN`; rows failing this are dropped silently, and the
    records underlying all three samples carry no `NaN` frequency or
    power. -/
theorem claim_C1_amended (dp : DateOracle) (text : String) (options : ParseOptions)
    (r : FileAnalysisReport) (h : parseAndAnalyzeCsv dp text options = .ok r) :
    (∃ f p tIdx, indicesOf dp text options = (some f, some p, tIdx) ∧
      recordsOf dp text options =
        (dataLinesOf dp text).filterMap (rowRecord dp (delimOf text) f p tIdx)) ∧
    (∀ rec ∈ recordsOf dp text options,
      rec.frequency.isNaN = false ∧ rec.power.isNaN = false) ∧
    ((r.samples.firstRows ++ r.samples.lastRows ++ r.samples.peakPowerRows).all
      (fun rec => !rec.frequency.isNaN && !rec.power.isNaN)) = true := by
  obtain ⟨f, p, tIdx, hidx, hne, hrep⟩ := parse_ok_elim dp text options r h
  have hrecs : recordsOf dp text options =
      (dataLinesOf dp text).filterMap (rowRecord dp (delimOf text) f p tIdx) := by
    rw [recordsOf_eq dp text options f p tIdx hidx, buildRecords_records]
  have hnan : ∀ rec ∈ recordsOf dp text options,
      rec.frequency.isNaN = false ∧ rec.power.isNaN = false := by
    intro rec hmem
    rw [hrecs] at hmem
    obtain ⟨line, _, hline⟩ := List.mem_filterMap.mp hmem
    exact rowRecord_not_nan dp (delimOf text) f p tIdx line rec hline
  refine ⟨⟨f, p, tIdx, hidx, hrecs⟩, hnan, ?_⟩
  rw [List.all_eq_true]
  intro rec hmem
  rw [hrep] at hmem
  have hsub0 := mkReport_samples_subset _ _ _ rec hmem
  have hsub : rec ∈ recordsOf dp text options := by
    rw [recordsOf_eq dp text options f p tIdx hidx]
    exact hsub0
  obtain ⟨hf2, hp2⟩ := hnan rec hsub
  simp [hf2, hp2]

/-- Witness for the amended C1 on a concrete parse with one dropped row:
    every sampled record has non-`NaN` frequency and power. -/
theorem claim_C1_witness :
    ((c1rep.samples.firstRows ++ c1rep.samples.lastRows ++ c1rep.samples.peakPowerRows).all
      (fun rec => !rec.frequency.isNaN && !rec.power.isNaN)) = true := by
  have h := claim_C1_amended dpNone "freq,power\n100,-50\nx,y" noOptions c1rep rfl
  exact h.2.2

theorem jsLtB_asymm (a b : JNum) (h : jsLtB a b = true) : jsLtB b a = false := by
  cases a with
  | nan => cases b <;> simp [jsLtB] at h
  | inf s =>
    cases b with
    | nan => simp [jsLtB] at h
    | inf t => cases s <;> cases t <;> simp_all [jsLtB]
    | fin q => cases s <;> simp_all [jsLtB]
  | fin qa =>
    cases b with
    | nan => simp [jsLtB] at h
    | inf t => cases t <;> simp_all [jsLtB]
    | fin qb =>
      simp only [jsLtB, decide_eq_true_eq] at h
      simp only [jsLtB, decide_eq_false_iff_not, not_lt]
      linarith

theorem jsLtB_irrefl (a : JNum) : jsLtB a a = false := by
  cases a with
  | nan => rfl
  | inf s => cases s <;> rfl
  | fin q => simp [jsLtB]

theorem jsLeB_of_not_lt (a b : JNum) (ha : a.isNaN = false) (hb : b.isNaN = false)
    (h : jsLtB a b = false) : jsLeB b a = true := by
  cases a with
  | nan => simp [JNum.isNaN] at ha
  | inf s =>
    cases b with
    | nan => simp [JNum.isNaN] at hb
    | inf t => cases s <;> cases t <;> simp_all [jsLtB, jsLeB]
    | fin q => cases s <;> simp_all [jsLtB, jsLeB]
  | fin qa =>
    cases b with
    | nan => simp [JNum.isNaN] at hb
    | inf t => cases t <;> simp_all [jsLtB, jsLeB]
    | fin qb =>
      simp only [jsLtB, decide_eq_false_iff_not, not_lt] at h
      simp only [jsLeB, decide_eq_true_eq]
      linarith

/-- Descending-by-power sortedness (`jsLeB` form) of a list already known
    to have no strict inversion, given no power is `NaN`. -/
theorem chain_le_of_chain_not_lt (l : List SpectrumDataPoint)
    (hnan : ∀ rec ∈ l, rec.power.isNaN = false)
    (hch : l.Chain' (fun a b => jsLtB a.power b.power = false)) :
    l.Chain' (fun a b => jsLeB b.power a.power = true) := by
  induction l with
  | nil => simp
  | cons x xs ih =>
    rw [List.chain'_cons'] at hch ⊢
    obtain ⟨hhead, htail⟩ := hch
    refine ⟨?_, ih (fun rec hr => hnan rec (List.mem_cons_of_mem _ hr)) htail⟩
    intro y hy
    have hyx := hhead y hy
    have hym : y ∈ xs := by
      cases xs with
      | nil => simp at hy
      | cons z zs =>
        simp only [List.head?_cons, Option.mem_def, Option.some.injEq] at hy
        subst hy
        exact List.mem_cons_self _ _
    exact jsLeB_of_not_lt x.power y.power (hnan x (List.mem_cons_self _ _))
      (hnan y (List.mem_cons_of_mem _ hym)) hyx

theorem sortJs_powerDesc_chain (l : List SpectrumDataPoint)
    (hnan : ∀ rec ∈ l, rec.power.isNaN = false) :
    (sortJs powerDesc l).Chain' (fun a b => jsLeB b.power a.power = true) := by
  refine chain_le_of_chain_not_lt _ (fun rec hr => hnan rec ((mem_sortJs _ _ _).mp hr)) ?_
  have hch := chain_sortJs powerDesc (fun a b hab => jsLtB_asymm _ _ hab) l
  exact hch

/-- All power fields of the retained records are non-`NaN`. -/
theorem recordsOf_power_not_nan (dp : DateOracle) (text : String) (options : ParseOptions)
    (f p : Nat) (tIdx : Option Nat)
    (hidx : indicesOf dp text options = (some f, some p, tIdx)) :
    ∀ rec ∈ recordsOf dp text options, rec.power.isNaN = false := by
  intro rec hmem
  rw [recordsOf_eq dp text options f p tIdx hidx, buildRecords_records] at hmem
  obtain ⟨line, _, hline⟩ := List.mem_filterMap.mp hmem
  exact (rowRecord_not_nan dp (delimOf text) f p tIdx line rec hline).2

/-- Claim C5: for every successful parse, `samples.peakPowerRows` is the
    10-element prefix of the stable descending-power sort of the retained
    records: its length is `min 10 (retained count)`, consecutive entries
    have non-increasing power, and records of equal power keep their
    original file order throughout the sort. -/
theorem claim_C5 (dp : DateOracle) (text : String) (options : ParseOptions)
    (r : FileAnalysisReport) (h : parseAndAnalyzeCsv dp text options = .ok r) :
    r.samples.peakPowerRows =
      (sortJs powerDesc (recordsOf dp text options)).take 10 ∧
    r.samples.peakPowerRows.length = min 10 (recordsOf dp text options).length ∧
    r.samples.peakPowerRows.Chain' (fun a b => jsLeB b.power a.power = true) ∧
    (∀ q : JNum,
      (sortJs powerDesc (recordsOf dp text options)).filter
          (fun rec => decide (rec.power = q)) =
        (recordsOf dp text options).filter (fun rec => decide (rec.power = q))) := by
  obtain ⟨f, p, tIdx, hidx, hne, hrep⟩ := parse_ok_elim dp text options r h
  have hrecords := recordsOf_eq dp text options f p tIdx hidx
  have hnan := recordsOf_power_not_nan dp text options f p tIdx hidx
  have hpeak : r.samples.peakPowerRows =
      (sortJs powerDesc (recordsOf dp text options)).take 10 := by
    rw [hrep, mkReport_samples, hrecords]
  refine ⟨hpeak, ?_, ?_, ?_⟩
  · rw [hpeak, List.length_take, length_sortJs]
  · rw [hpeak]
    exact (sortJs_powerDesc_chain _ hnan).take 10
  · intro q
    refine filter_sortJs powerDesc (fun rec => decide (rec.power = q)) ?_ _
    intro a b hca hcb
    rw [decide_eq_true_eq] at hca hcb
    show jsLtB b.power a.power = false
    rw [hca, hcb]
    exact jsLtB_irrefl q

/-- Witness for C5 on a concrete parse with a power tie between the rows
    `100,-50` and `200,-50`. -/
theorem claim_C5_witness :
    c5rep.samples.peakPowerRows =
      (sortJs powerDesc (recordsOf dpNone c5text noOptions)).take 10 ∧
    c5rep.samples.peakPowerRows.length = min 10 (recordsOf dpNone c5text noOptions).length ∧
    c5rep.samples.peakPowerRows.Chain' (fun a b => jsLeB b.power a.power = true) ∧
    (sortJs powerDesc (recordsOf dpNone c5text noOptions)).filter
        (fun rec => decide (rec.power = JNum.fin (-50))) =
      (recordsOf dpNone c5text noOptions).filter
        (fun rec => decide (rec.power = JNum.fin (-50))) := by
  have h := claim_C5 dpNone c5text noOptions c5rep rfl
  exact ⟨h.1, h.2.1, h.2.2.1, h.2.2.2 (JNum.fin (-50))⟩

/-- Counterexample to claim C3 as stated: on a 50-line sample where only 3
    lines split under `;`, the candidate is *not* discarded (3 out of 50 is
    below half of the sample but not below half of `min(50, 5) = 5`), so
    the code selects `;` while the claimed rule falls back to
    whitespace. -/
theorem claim_C3_counterexample :
    detectDelimiter c3lines = ';' ∧
    claimC3Delimiter c3lines = ' ' ∧
    2 * (delimCounts c3lines ';').length < c3lines.length := by
  refine ⟨by decide, by decide, by decide⟩

theorem argminFirst_map (key : β → ℚ) (f : α → β) (l : List α) :
    argminFirst key (l.map f) = (argminFirst (fun a => key (f a)) l).map f := by
  induction l with
  | nil => rfl
  | cons x xs ih =>
    rw [List.map_cons, argminFirst, argminFirst, ih]
    cases argminFirst (fun a => key (f a)) xs with
    | none => rfl
    | some m => by_cases hk : key (f m) < key (f x) <;> simp [hk]

theorem not_delimInvalid_eq (sampleLines : List String) (d : Char) :
    (!delimInvalid sampleLines d) =
      decide (min sampleLines.length 5 ≤ 2 * (delimCounts sampleLines d).length) := by
  rw [delimInvalid, ← decide_not, decide_eq_decide, not_lt]
  generalize (delimCounts sampleLines d).length = k
  generalize min sampleLines.length 5 = m
  constructor
  · intro hq
    have h2 : (m : ℚ) ≤ ((2 * k : ℕ) : ℚ) := by
      push_cast
      linarith
    exact_mod_cast h2
  · intro hn
    have h2 : (m : ℚ) ≤ ((2 * k : ℕ) : ℚ) := by
      exact_mod_cast hn
    push_cast at h2
    linarith

/-- Claim C3, amended: `detectDelimiter` follows the claimed rule with the
    discard threshold corrected to half of `min(sample size, 5)` lines —
    survivors are the candidates splitting at least that many lines into
    more than one field and having field-count variance below the
    threshold; the earliest lowest-variance survivor is selected, with
    whitespace-run splitting as the fallback. -/
theorem claim_C3_amended (sampleLines : List String) :
    detectDelimiter sampleLines = amendedC3Delimiter sampleLines := by
  dsimp only [detectDelimiter, amendedC3Delimiter]
  rw [List.filter_map]
  have hfil : ([',', ';', '\t'].filter
        ((fun s => s.valid && decide (s.variance < 1 / 4)) ∘
          (fun d => DelimStat.mk d (delimVariance sampleLines d)
            (!delimInvalid sampleLines d)))) =
      ([',', ';', '\t'].filter (fun d =>
        decide (min sampleLines.length 5 ≤ 2 * (delimCounts sampleLines d).length) &&
        decide (delimVariance sampleLines d < 1 / 4))) := by
    refine List.filter_congr ?_
    intro d _
    simp only [Function.comp]
    rw [not_delimInvalid_eq]
  rw [hfil]
  generalize ([',', ';', '\t'].filter (fun d =>
    decide (min sampleLines.length 5 ≤ 2 * (delimCounts sampleLines d).length) &&
    decide (delimVariance sampleLines d < 1 / 4))) = survivors
  have hhead : (sortJs (fun y x => decide (y.variance < x.variance))
      (survivors.map (fun d => DelimStat.mk d (delimVariance sampleLines d)
        (!delimInvalid sampleLines d)))).head? =
      (argminFirst (fun d => delimVariance sampleLines d) survivors).map
        (fun d => DelimStat.mk d (delimVariance sampleLines d)
          (!delimInvalid sampleLines d)) := by
    have hh := head_sortJs_argmin (fun s : DelimStat => s.variance)
      (survivors.map (fun d => DelimStat.mk d (delimVariance sampleLines d)
        (!delimInvalid sampleLines d)))
    have hm := argminFirst_map (fun s : DelimStat => s.variance)
      (fun d => DelimStat.mk d (delimVariance sampleLines d)
        (!delimInvalid sampleLines d)) survivors
    exact hh.trans hm
  cases h1 : argminFirst (fun d => delimVariance sampleLines d) survivors with
  | none =>
    rw [h1] at hhead
    simp only [Option.map_none'] at hhead
    rw [List.head?_eq_none_iff.mp hhead]
  | some d0 =>
    rw [h1] at hhead
    simp only [Option.map_some'] at hhead
    cases hs : sortJs (fun y x => decide (y.variance < x.variance))
        (survivors.map (fun d => DelimStat.mk d (delimVariance sampleLines d)
          (!delimInvalid sampleLines d))) with
    | nil => rw [hs] at hhead; exact absurd hhead (by simp)
    | cons c rest =>
      rw [hs] at hhead
      simp only [List.head?_cons, Option.some.injEq] at hhead
      rw [hhead]

/-- Claim C8, evaluated at the failing input: the timestamp cell `1,000`
    *is* numeric in the code's own sense (`isNumeric` strips thousands
    separators), its value is 1000 (seconds scale, so the claim expects
    `1000 × 1000 = 1000000` ms) — but `parseTimestamp` computes
    `Number('1,000') = NaN` without stripping the comma and returns
    `NaN * 1000 = NaN` instead of either the disambiguated value or
    `null`. -/
theorem claim_C8_bug :
    isNumeric "1,000" = true ∧
    jsNumber (removeCommas "1,000") = JNum.fin 1000 ∧
    jsNumber "1,000" = JNum.nan ∧
    parseTimestamp dpNone (some "1,000") = some JNum.nan ∧
    jsMul (JNum.fin 1000) (JNum.fin 1000) = JNum.fin 1000000 := by
  refine ⟨by decide, by decide, by decide, by decide, by decide⟩

/-! ### Fold lemmas for the running min/max timestamp -/

theorem jsMin_fin (x y : ℚ) : jsMin (.fin x) (.fin y) = .fin (min x y) := by
  by_cases h : y < x
  · simp [jsMin, jsLtB, JNum.isNaN, h, min_eq_right h.le]
  · simp [jsMin, jsLtB, JNum.isNaN, h, min_eq_left (not_lt.mp h)]

theorem jsMax_fin (x y : ℚ) : jsMax (.fin x) (.fin y) = .fin (max x y) := by
  by_cases h : x < y
  · simp [jsMax, jsLtB, JNum.isNaN, h, max_eq_right h.le]
  · simp [jsMax, jsLtB, JNum.isNaN, h, max_eq_left (not_lt.mp h)]

theorem jsLeB_refl_fin (a : JNum) (ha : a.isFinite = true) : jsLeB a a = true := by
  cases a with
  | nan => simp [JNum.isFinite] at ha
  | inf s => simp [JNum.isFinite] at ha
  | fin q => simp [jsLeB]

theorem jsLeB_trans_fin (a b c : JNum) (ha : a.isFinite = true) (hb : b.isFinite = true)
    (hc : c.isFinite = true) (hab : jsLeB a b = true) (hbc : jsLeB b c = true) :
    jsLeB a c = true := by
  cases a with
  | nan => simp [JNum.isFinite] at ha
  | inf s => simp [JNum.isFinite] at ha
  | fin qa =>
    cases b with
    | nan => simp [JNum.isFinite] at hb
    | inf s => simp [JNum.isFinite] at hb
    | fin qb =>
      cases c with
      | nan => simp [JNum.isFinite] at hc
      | inf s => simp [JNum.isFinite] at hc
      | fin qc =>
        simp only [jsLeB, decide_eq_true_eq] at hab hbc ⊢
        linarith

/-- Folding `Math.min` over finite values from a finite start: the result
    is finite, is the start or one of the values, and is below all of
    them. -/
theorem foldl_jsMin_finite (ts : List JNum) (hts : ∀ t ∈ ts, t.isFinite = true)
    (a : JNum) (ha : a.isFinite = true) :
    (ts.foldl jsMin a).isFinite = true ∧
    ((ts.foldl jsMin a) = a ∨ (ts.foldl jsMin a) ∈ ts) ∧
    jsLeB (ts.foldl jsMin a) a = true ∧
    (∀ t ∈ ts, jsLeB (ts.foldl jsMin a) t = true) := by
  induction ts generalizing a with
  | nil => exact ⟨ha, Or.inl rfl, jsLeB_refl_fin a ha, by simp⟩
  | cons t rest ih =>
    obtain ⟨qt, rfl⟩ : ∃ q, t = JNum.fin q := by
      cases t with
      | nan => exact absurd (hts _ (List.mem_cons_self _ _)) (by simp [JNum.isFinite])
      | inf s => exact absurd (hts _ (List.mem_cons_self _ _)) (by simp [JNum.isFinite])
      | fin q => exact ⟨q, rfl⟩
    obtain ⟨qa, rfl⟩ : ∃ q, a = JNum.fin q := by
      cases a with
      | nan => simp [JNum.isFinite] at ha
      | inf s => simp [JNum.isFinite] at ha
      | fin q => exact ⟨q, rfl⟩
    have hrest : ∀ t ∈ rest, t.isFinite = true :=
      fun t ht => hts t (List.mem_cons_of_mem _ ht)
    rw [List.foldl_cons, jsMin_fin]
    obtain ⟨hfin, hor, hle, hall⟩ := ih hrest (JNum.fin (min qa qt)) (by simp [JNum.isFinite])
    have hle_a : jsLeB (JNum.fin (min qa qt)) (JNum.fin qa) = true := by
      simp [jsLeB, min_le_left]
    have hle_t : jsLeB (JNum.fin (min qa qt)) (JNum.fin qt) = true := by
      simp [jsLeB, min_le_right]
    refine ⟨hfin, ?_, ?_, ?_⟩
    · rcases hor with hor | hor
      · rcases min_choice qa qt with hm | hm
        · exact Or.inl (by rw [hor, hm])
        · exact Or.inr (by rw [hor, hm]; exact List.mem_cons_self _ _)
      · exact Or.inr (List.mem_cons_of_mem _ hor)
    · exact jsLeB_trans_fin _ _ _ hfin (by simp [JNum.isFinite]) (by simp [JNum.isFinite])
        hle hle_a
    · intro u hu
      rcases List.mem_cons.mp hu with rfl | hu
      · exact jsLeB_trans_fin _ _ _ hfin (by simp [JNum.isFinite]) (by simp [JNum.isFinite])
          hle hle_t
      · exact hall u hu

/-- Folding `Math.max` over finite values from a finite start. -/
theorem foldl_jsMax_finite (ts : List JNum) (hts : ∀ t ∈ ts, t.isFinite = true)
    (a : JNum) (ha : a.isFinite = true) :
    (ts.foldl jsMax a).isFinite = true ∧
    ((ts.foldl jsMax a) = a ∨ (ts.foldl jsMax a) ∈ ts) ∧
    jsLeB a (ts.foldl jsMax a) = true ∧
    (∀ t ∈ ts, jsLeB t (ts.foldl jsMax a) = true) := by
  induction ts generalizing a with
  | nil => exact ⟨ha, Or.inl rfl, jsLeB_refl_fin a ha, by simp⟩
  | cons t rest ih =>
    obtain ⟨qt, rfl⟩ : ∃ q, t = JNum.fin q := by
      cases t with
      | nan => exact absurd (hts _ (List.mem_cons_self _ _)) (by simp [JNum.isFinite])
      | inf s => exact absurd (hts _ (List.mem_cons_self _ _)) (by simp [JNum.isFinite])
      | fin q => exact ⟨q, rfl⟩
    obtain ⟨qa, rfl⟩ : ∃ q, a = JNum.fin q := by
      cases a with
      | nan => simp [JNum.isFinite] at ha
      | inf s => simp [JNum.isFinite] at ha
      | fin q => exact ⟨q, rfl⟩
    have hrest : ∀ t ∈ rest, t.isFinite = true :=
      fun t ht => hts t (List.mem_cons_of_mem _ ht)
    rw [List.foldl_cons, jsMax_fin]
    obtain ⟨hfin, hor, hle, hall⟩ := ih hrest (JNum.fin (max qa qt)) (by simp [JNum.isFinite])
    have hle_a : jsLeB (JNum.fin qa) (JNum.fin (max qa qt)) = true := by
      simp [jsLeB, le_max_left]
    have hle_t : jsLeB (JNum.fin qt) (JNum.fin (max qa qt)) = true := by
      simp [jsLeB, le_max_right]
    refine ⟨hfin, ?_, ?_, ?_⟩
    · rcases hor with hor | hor
      · rcases max_choice qa qt with hm | hm
        · exact Or.inl (by rw [hor, hm])
        · exact Or.inr (by rw [hor, hm]; exact List.mem_cons_self _ _)
      · exact Or.inr (List.mem_cons_of_mem _ hor)
    · exact jsLeB_trans_fin _ _ _ (by simp [JNum.isFinite]) (by simp [JNum.isFinite]) hfin
        hle_a hle
    · intro u hu
      rcases List.mem_cons.mp hu with rfl | hu
      · exact jsLeB_trans_fin _ _ _ (by simp [JNum.isFinite]) (by simp [JNum.isFinite]) hfin
          hle_t hle
      · exact hall u hu

theorem foldl_jsMin_props (ts : List JNum) (hne : ts ≠ [])
    (hall : ∀ t ∈ ts, t.isFinite = true) :
    (ts.foldl jsMin (JNum.inf true)).isFinite = true ∧
    (ts.foldl jsMin (JNum.inf true)) ∈ ts ∧
    (∀ t ∈ ts, jsLeB (ts.foldl jsMin (JNum.inf true)) t = true) := by
  cases ts with
  | nil => exact absurd rfl hne
  | cons t rest =>
    obtain ⟨qt, rfl⟩ : ∃ q, t = JNum.fin q := by
      cases t with
      | nan => exact absurd (hall _ (List.mem_cons_self _ _)) (by simp [JNum.isFinite])
      | inf s => exact absurd (hall _ (List.mem_cons_self _ _)) (by simp [JNum.isFinite])
      | fin q => exact ⟨q, rfl⟩
    rw [List.foldl_cons]
    have hstep : jsMin (JNum.inf true) (JNum.fin qt) = JNum.fin qt := rfl
    rw [hstep]
    have hrest : ∀ u ∈ rest, u.isFinite = true :=
      fun u hu => hall u (List.mem_cons_of_mem _ hu)
    obtain ⟨hfin, hor, hle, hlist⟩ :=
      foldl_jsMin_finite rest hrest (JNum.fin qt) (by simp [JNum.isFinite])
    refine ⟨hfin, ?_, ?_⟩
    · rcases hor with hor | hor
      · rw [hor]; exact List.mem_cons_self _ _
      · exact List.mem_cons_of_mem _ hor
    · intro u hu
      rcases List.mem_cons.mp hu with rfl | hu
      · exact hle
      · exact hlist u hu

theorem foldl_jsMax_props (ts : List JNum) (hne : ts ≠ [])
    (hall : ∀ t ∈ ts, t.isFinite = true) :
    (ts.foldl jsMax (JNum.inf false)).isFinite = true ∧
    (ts.foldl jsMax (JNum.inf false)) ∈ ts ∧
    (∀ t ∈ ts, jsLeB t (ts.foldl jsMax (JNum.inf false)) = true) := by
  cases ts with
  | nil => exact absurd rfl hne
  | cons t rest =>
    obtain ⟨qt, rfl⟩ : ∃ q, t = JNum.fin q := by
      cases t with
      | nan => exact absurd (hall _ (List.mem_cons_self _ _)) (by simp [JNum.isFinite])
      | inf s => exact absurd (hall _ (List.mem_cons_self _ _)) (by simp [JNum.isFinite])
      | fin q => exact ⟨q, rfl⟩
    rw [List.foldl_cons]
    have hstep : jsMax (JNum.inf false) (JNum.fin qt) = JNum.fin qt := rfl
    rw [hstep]
    have hrest : ∀ u ∈ rest, u.isFinite = true :=
      fun u hu => hall u (List.mem_cons_of_mem _ hu)
    obtain ⟨hfin, hor, hle, hlist⟩ :=
      foldl_jsMax_finite rest hrest (JNum.fin qt) (by simp [JNum.isFinite])
    refine ⟨hfin, ?_, ?_⟩
    · rcases hor with hor | hor
      · rw [hor]; exact List.mem_cons_self _ _
      · exact List.mem_cons_of_mem _ hor
    · intro u hu
      rcases List.mem_cons.mp hu with rfl | hu
      · exact hle
      · exact hlist u hu

theorem jsMin_right_nan (x : JNum) : jsMin x JNum.nan = JNum.nan := by
  cases x <;> simp [jsMin, JNum.isNaN]

theorem jsMax_right_nan (x : JNum) : jsMax x JNum.nan = JNum.nan := by
  cases x <;> simp [jsMax, JNum.isNaN]

theorem jsMin_right_neg_inf (x : JNum) :
    jsMin x (JNum.inf false) = JNum.nan ∨ jsMin x (JNum.inf false) = JNum.inf false := by
  cases x with
  | nan => exact Or.inl (by simp [jsMin, JNum.isNaN])
  | inf s => cases s <;> simp [jsMin, jsLtB, JNum.isNaN]
  | fin q => exact Or.inr (by simp [jsMin, jsLtB, JNum.isNaN])

theorem jsMax_right_pos_inf (x : JNum) :
    jsMax x (JNum.inf true) = JNum.nan ∨ jsMax x (JNum.inf true) = JNum.inf true := by
  cases x with
  | nan => exact Or.inl (by simp [jsMax, JNum.isNaN])
  | inf s => cases s <;> simp [jsMax, jsLtB, JNum.isNaN]
  | fin q => exact Or.inr (by simp [jsMax, jsLtB, JNum.isNaN])

theorem foldl_jsMin_stuck (l : List JNum) (a : JNum)
    (ha : a = JNum.nan ∨ a = JNum.inf false) :
    l.foldl jsMin a = JNum.nan ∨ l.foldl jsMin a = JNum.inf false := by
  induction l generalizing a with
  | nil => exact ha
  | cons t rest ih =>
    rw [List.foldl_cons]
    rcases ha with rfl | rfl
    · refine ih _ ?_
      left
      simp [jsMin, JNum.isNaN]
    · refine ih _ ?_
      cases t with
      | nan => exact Or.inl (by simp [jsMin, JNum.isNaN])
      | inf s => cases s <;> simp [jsMin, jsLtB, JNum.isNaN]
      | fin q => exact Or.inr (by simp [jsMin, jsLtB, JNum.isNaN])

theorem foldl_jsMax_stuck (l : List JNum) (a : JNum)
    (ha : a = JNum.nan ∨ a = JNum.inf true) :
    l.foldl jsMax a = JNum.nan ∨ l.foldl jsMax a = JNum.inf true := by
  induction l generalizing a with
  | nil => exact ha
  | cons t rest ih =>
    rw [List.foldl_cons]
    rcases ha with rfl | rfl
    · refine ih _ ?_
      left
      simp [jsMax, JNum.isNaN]
    · refine ih _ ?_
      cases t with
      | nan => exact Or.inl (by simp [jsMax, JNum.isNaN])
      | inf s => cases s <;> simp [jsMax, jsLtB, JNum.isNaN]
      | fin q => exact Or.inr (by simp [jsMax, jsLtB, JNum.isNaN])

/-- The `isFinite(minTimestamp) && isFinite(maxTimestamp)` test is
    equivalent to: at least one timestamp was seen and all of them are
    finite. -/
theorem timeStats_cond_iff (ts : List JNum) :
    (((ts.foldl jsMin (JNum.inf true)).isFinite &&
      (ts.foldl jsMax (JNum.inf false)).isFinite) = true) ↔
    (ts ≠ [] ∧ ∀ t ∈ ts, t.isFinite = true) := by
  constructor
  · intro h
    rw [Bool.and_eq_true] at h
    constructor
    · intro hempty
      rw [hempty] at h
      simp [JNum.isFinite] at h
    · intro t0 hmem
      by_contra hnf
      have hnf2 : t0.isFinite = false := by
        cases ht : t0.isFinite
        · rfl
        · exact absurd ht hnf
      obtain ⟨l1, l2, rfl⟩ := List.append_of_mem hmem
      cases t0 with
      | fin q => simp [JNum.isFinite] at hnf2
      | nan =>
        have : (l1 ++ JNum.nan :: l2).foldl jsMin (JNum.inf true) = JNum.nan ∨
            (l1 ++ JNum.nan :: l2).foldl jsMin (JNum.inf true) = JNum.inf false := by
          rw [List.foldl_append, List.foldl_cons, jsMin_right_nan]
          exact foldl_jsMin_stuck l2 _ (Or.inl rfl)
        rcases this with hthis | hthis <;> rw [hthis] at h <;>
          simp [JNum.isFinite] at h
      | inf s =>
        cases s with
        | false =>
          have : (l1 ++ JNum.inf false :: l2).foldl jsMin (JNum.inf true) = JNum.nan ∨
              (l1 ++ JNum.inf false :: l2).foldl jsMin (JNum.inf true) = JNum.inf false := by
            rw [List.foldl_append, List.foldl_cons]
            exact foldl_jsMin_stuck l2 _ (jsMin_right_neg_inf _)
          rcases this with hthis | hthis <;> rw [hthis] at h <;>
            simp [JNum.isFinite] at h
        | true =>
          have : (l1 ++ JNum.inf true :: l2).foldl jsMax (JNum.inf false) = JNum.nan ∨
              (l1 ++ JNum.inf true :: l2).foldl jsMax (JNum.inf false) = JNum.inf true := by
            rw [List.foldl_append, List.foldl_cons]
            exact foldl_jsMax_stuck l2 _ (jsMax_right_pos_inf _)
          rcases this with hthis | hthis <;> rw [hthis] at h <;>
            simp [JNum.isFinite] at h
  · intro ⟨hne, hall⟩
    rw [Bool.and_eq_true]
    exact ⟨(foldl_jsMin_props ts hne hall).1, (foldl_jsMax_props ts hne hall).1⟩

theorem timeStats_startMs (a b c : JNum) : (TimeStats.mk a b c).startMs = a := rfl

theorem timeStats_endMs (a b c : JNum) : (TimeStats.mk a b c).endMs = b := rfl

theorem timeStats_durationSeconds (a b c : JNum) :
    (TimeStats.mk a b c).durationSeconds = c := rfl

/-- Counterexample to claim C6 as stated: the timestamp cell `-1e306` is
    numeric, so `parseTimestamp` multiplies it by 1000 — which overflows to
    `-Infinity`.  The retained record carries this (parseable!) timestamp,
    yet `timeStats` is omitted because `isFinite(minTimestamp)` fails. -/
theorem claim_C6_counterexample :
    parseTimestamp dpNone (some "-1e306") = some (JNum.inf false) ∧
    (parseAndAnalyzeCsv dpNone "time,freq,power\n-1e306,100,-50" noOptions).toOption.map
      (fun r => (r.timeStats, r.samples.firstRows.map (fun rec => rec.timestamp))) =
      some (none, [some (JNum.inf false)]) := by
  refine ⟨by decide, rfl⟩

/-- Claim C6, amended: `timeStats` is present iff at least one retained
    record carries a timestamp *and every carried timestamp is finite*
    (the seconds-to-milliseconds conversion can overflow to `-Infinity`,
    and a comma-bearing numeric cell yields a `NaN` timestamp; either
    suppresses the block).  When present, `start`/`end` are the
    minimum/maximum timestamp over the retained records and
    `durationSeconds = (end - start) / 1000`. -/
theorem claim_C6_amended (dp : DateOracle) (text : String) (options : ParseOptions)
    (r : FileAnalysisReport) (h : parseAndAnalyzeCsv dp text options = .ok r) :
    (r.timeStats.isSome = true ↔
      (timestampsOf dp text options ≠ [] ∧
       ∀ t ∈ timestampsOf dp text options, t.isFinite = true)) ∧
    (∀ tst, r.timeStats = some tst →
      tst.startMs = (timestampsOf dp text options).foldl jsMin (JNum.inf true) ∧
      tst.endMs = (timestampsOf dp text options).foldl jsMax (JNum.inf false) ∧
      tst.durationSeconds = jsDiv (jsSub tst.endMs tst.startMs) (JNum.fin 1000) ∧
      tst.startMs ∈ timestampsOf dp text options ∧
      tst.endMs ∈ timestampsOf dp text options ∧
      (∀ t ∈ timestampsOf dp text options,
        jsLeB tst.startMs t = true ∧ jsLeB t tst.endMs = true)) := by
  obtain ⟨f, p, tIdx, hidx, hne, hrep⟩ := parse_ok_elim dp text options r h
  have hrecords := recordsOf_eq dp text options f p tIdx hidx
  have hts : timestampsOf dp text options =
      ((buildRecords dp (delimOf text) f p tIdx (dataLinesOf dp text)).records.filterMap
        (fun rec => rec.timestamp)) := by
    rw [timestampsOf, hrecords]
  have hmin : (buildRecords dp (delimOf text) f p tIdx (dataLinesOf dp text)).minT =
      (timestampsOf dp text options).foldl jsMin (JNum.inf true) := by
    rw [buildRecords_minT, hts]
  have hmax : (buildRecords dp (delimOf text) f p tIdx (dataLinesOf dp text)).maxT =
      (timestampsOf dp text options).foldl jsMax (JNum.inf false) := by
    rw [buildRecords_maxT, hts]
  have htstats : r.timeStats =
      (if (buildRecords dp (delimOf text) f p tIdx (dataLinesOf dp text)).minT.isFinite &&
          (buildRecords dp (delimOf text) f p tIdx (dataLinesOf dp text)).maxT.isFinite then
        some (TimeStats.mk
          (buildRecords dp (delimOf text) f p tIdx (dataLinesOf dp text)).minT
          (buildRecords dp (delimOf text) f p tIdx (dataLinesOf dp text)).maxT
          (jsDiv (jsSub
            (buildRecords dp (delimOf text) f p tIdx (dataLinesOf dp text)).maxT
            (buildRecords dp (delimOf text) f p tIdx (dataLinesOf dp text)).minT)
            (JNum.fin 1000)))
       else none) := by
    rw [hrep, mkReport_timeStats]
  have hcond : (((buildRecords dp (delimOf text) f p tIdx (dataLinesOf dp text)).minT.isFinite &&
      (buildRecords dp (delimOf text) f p tIdx (dataLinesOf dp text)).maxT.isFinite) = true) ↔
      (timestampsOf dp text options ≠ [] ∧
       ∀ t ∈ timestampsOf dp text options, t.isFinite = true) := by
    rw [hmin, hmax]
    exact timeStats_cond_iff _
  constructor
  · rw [htstats]
    by_cases hb : ((buildRecords dp (delimOf text) f p tIdx (dataLinesOf dp text)).minT.isFinite &&
        (buildRecords dp (delimOf text) f p tIdx (dataLinesOf dp text)).maxT.isFinite) = true
    · rw [if_pos hb]
      simp only [Option.isSome_some]
      exact ⟨fun _ => hcond.mp hb, fun _ => trivial⟩
    · rw [if_neg hb]
      simp only [Option.isSome_none]
      exact ⟨fun hfalse => absurd hfalse (by simp), fun hr => absurd (hcond.mpr hr) hb⟩
  · intro tst hsome
    rw [htstats] at hsome
    by_cases hb : ((buildRecords dp (delimOf text) f p tIdx (dataLinesOf dp text)).minT.isFinite &&
        (buildRecords dp (delimOf text) f p tIdx (dataLinesOf dp text)).maxT.isFinite) = true
    · rw [if_pos hb] at hsome
      have htst := Option.some_inj.mp hsome
      obtain ⟨hne2, hall2⟩ := hcond.mp hb
      obtain ⟨_, hminmem, hminle⟩ := foldl_jsMin_props _ hne2 hall2
      obtain ⟨_, hmaxmem, hmaxle⟩ := foldl_jsMax_props _ hne2 hall2
      rw [← htst, timeStats_startMs, timeStats_endMs, timeStats_durationSeconds]
      refine ⟨hmin, hmax, rfl, ?_, ?_, ?_⟩
      · rw [hmin]
        exact hminmem
      · rw [hmax]
        exact hmaxmem
      · intro t ht
        rw [hmin, hmax]
        exact ⟨hminle t ht, hmaxle t ht⟩
    · rw [if_neg hb] at hsome
      exact absurd hsome (by simp)

/-- Witness for the amended C6 on a concrete parse with timestamps
    1000 s and 2000 s: `timeStats` is present, `start`/`end` are the
    min/max converted timestamps and they belong to the record
    timestamps. -/
theorem claim_C6_witness :
    c6rep.timeStats.isSome = true ∧
    c6tst.startMs = (timestampsOf dpNone c6text noOptions).foldl jsMin (JNum.inf true) ∧
    c6tst.endMs = (timestampsOf dpNone c6text noOptions).foldl jsMax (JNum.inf false) ∧
    c6tst.durationSeconds = jsDiv (jsSub c6tst.endMs c6tst.startMs) (JNum.fin 1000) ∧
    c6tst.startMs ∈ timestampsOf dpNone c6text noOptions ∧
    c6tst.endMs ∈ timestampsOf dpNone c6text noOptions := by
  have h := claim_C6_amended dpNone c6text noOptions c6rep rfl
  have h2 := h.2 c6tst rfl
  exact ⟨h.1.mpr ⟨by decide, by decide⟩, h2.1, h2.2.1, h2.2.2.1, h2.2.2.2.1, h2.2.2.2.2.1⟩
